import Mathlib

/-!
# The session registry of the centrifuge mock client (`main.go`)

A shallow embedding of `main.go`: the `SafeUsers` registry with its methods, the
session worker `newClient`, and the `connection.add` branch of `ApiServer`.

* The Go map `map[string]User` is an association list with unique keys
  (`AList`): `m[k]` is `AList.lookup`, `m[k] = v` is `AList.insert`,
  `delete(m, k)` is `AList.erase`, `len(m)` is the number of entries.
* A channel `chan int` is represented by its identity, a natural number handed
  out by `make(chan int)` from a counter.
* Every method of `SafeUsers` runs under `u.mu`, hence atomically: a method is a
  function from the state before the call to the state after it.
* A goroutine started by `go newClient(...)` is a record in the list of workers,
  with the place its control has reached.
* A send `stop <- 0` on the unbuffered channel is a rendezvous: it completes
  only with a worker that is receiving on that channel. The receiver then
  still runs its last lines, as a step of its own.
* Calls into the libraries (`net/url`, `path`, `net/http/cookiejar`, the
  centrifuge client) are not code of `main.go`: what they answer is a parameter.
-/

namespace MockClient

/-! ## Data model -/

/-- One `*http.Cookie`, reduced to its name and value. -/
structure Cookie where
  Name : String
  Value : String
deriving DecidableEq, Repr

/-- The Go `type User struct`; the `stop chan int` field holds the channel's identity. -/
structure User where
  id : String
  stop : Nat
  isConnected : Bool
  isSubscribed : Bool
deriving DecidableEq, Repr

/-- The Go `map[string]User`. -/
abbrev Users := AList (fun _ : String => User)

/-- The Go `type UsersCounters struct` (the counts are non-negative Go ints). -/
structure UsersCounters where
  total : Nat
  connected : Nat
  subscribed : Nat
deriving DecidableEq, Repr

/-- Where the control of a `newClient` goroutine is: started by `go` and not
yet at its `select` (lines 192-242), blocked in `select` on `<-stop`
(lines 244-246), past the receive and still running its last lines (247-248
and the deferred 216-217), or gone (it returned). -/
inductive Phase where
  | aboutToRun
  | waiting
  | stopping
  | exited
deriving DecidableEq, Repr

/-- A goroutine `newClient(userid, centrifugoUrl, stop, cookies)`. -/
structure Worker where
  userid : String
  centrifugoUrl : String
  stop : Nat
  cookies : List Cookie
  phase : Phase
deriving DecidableEq, Repr

/-- The state the registry methods act on: `safeUsers.users`, the channel
allocator behind `make(chan int)`, the goroutines started by `go newClient`,
and the channels on which a send `stop <- 0` has completed, in order. -/
structure World where
  users : Users
  nextChan : Nat
  workers : List Worker
  sent : List Nat

/-- The state at process start: `SafeUsers{users: make(map[string]User)}`. -/
def World.init : World := ⟨∅, 0, [], []⟩

/-- The workers bound to `userid` that are running or about to run. -/
def liveWorkers (w : World) (userid : String) : List Worker :=
  w.workers.filter (fun k => decide (k.userid = userid) && decide (k.phase ≠ Phase.exited))

/-- The workers bound to `userid` that have not received on their stop channel
yet: about to run, or waiting in their `select`. -/
def pendingWorkers (w : World) (userid : String) : List Worker :=
  w.workers.filter (fun k =>
    decide (k.userid = userid) &&
      (decide (k.phase = Phase.aboutToRun) || decide (k.phase = Phase.waiting)))

/-- All workers ever started for `userid`. -/
def startedWorkers (w : World) (userid : String) : List Worker :=
  w.workers.filter (fun k => decide (k.userid = userid))

/-! ## Registry methods -/

/-- The method `SafeUsers.SetConnected` (lines 48-56). -/
def SetConnected (w : World) (userid : String) (state : Bool) : World :=
  match w.users.lookup userid with
  | some user => { w with users := w.users.insert userid { user with isConnected := state } }
  | none => w

/-- The method `SafeUsers.SetSubscribed` (lines 58-67). -/
def SetSubscribed (w : World) (userid : String) (state : Bool) : World :=
  match w.users.lookup userid with
  | some user => { w with users := w.users.insert userid { user with isSubscribed := state } }
  | none => w

/-- The loop of `GetCounters` (lines 73-81) over the entries in the order
`range` delivers them: the pair `(connected, subscribed)`. -/
def countLoop (entries : List (Sigma fun _ : String => User)) : Nat × Nat :=
  entries.foldl
    (fun acc e =>
      let connected := if e.2.isConnected then acc.1 + 1 else acc.1
      let subscribed := if e.2.isSubscribed then acc.2 + 1 else acc.2
      (connected, subscribed))
    (0, 0)

/-- The method `SafeUsers.GetCounters` (lines 69-83), with `range` visiting the
entries in the order `order`. It returns the counters and the state it leaves. -/
def GetCountersIn (order : List (Sigma fun _ : String => User)) (w : World) :
    UsersCounters × World :=
  let c := countLoop order
  (⟨w.users.entries.length, c.1, c.2⟩, w)

/-- The method `SafeUsers.GetCounters` with the entries visited in stored order. -/
def GetCounters (w : World) : UsersCounters × World :=
  GetCountersIn w.users.entries w

/-- The method `SafeUsers.GetUser` (lines 85-91): the Go pair `(user, present)`. -/
def GetUser (w : World) (userid : String) : Option User :=
  w.users.lookup userid

/-- The method `SafeUsers.AddUser` (lines 93-106): the returned boolean and the
state after the call. `go newClient(...)` adds a worker that is about to run. -/
def AddUser (w : World) (userid centrifugoUrl : String) (cookies : List Cookie) :
    Bool × World :=
  match w.users.lookup userid with
  | some _ => (false, w)
  | none =>
    let stop := w.nextChan
    (true,
      { users := w.users.insert userid ⟨userid, stop, false, false⟩
        nextChan := w.nextChan + 1
        workers := w.workers ++ [⟨userid, centrifugoUrl, stop, cookies, Phase.aboutToRun⟩]
        sent := w.sent })

/-- The rendezvous of a send on the unbuffered channel `ch` with the goroutines:
the first worker blocked in `select` on `<-stop` for this channel (line 246)
receives the value; it has lines 247-248 and its deferred function still to
run. `none`: no worker is receiving on `ch`, the send does not complete. -/
def handoff : List Worker → Nat → Option (List Worker)
  | [], _ => none
  | k :: ks, ch =>
    if k.stop = ch ∧ k.phase = Phase.waiting then
      some ({ k with phase := Phase.stopping } :: ks)
    else
      (handoff ks ch).map (fun ks1 => k :: ks1)

/-- The statement `user.stop <- 0` (lines 117 and 127). `none`: the sender stays
blocked in this state. -/
def send (w : World) (ch : Nat) : Option World :=
  (handoff w.workers ch).map (fun ws => { w with workers := ws, sent := w.sent ++ [ch] })

/-- The method `SafeUsers.RemoveUser` (lines 108-120). `none`: the call is
blocked at line 117 and does not return in this state. -/
def RemoveUser (w : World) (userid : String) : Option (Bool × World) :=
  match w.users.lookup userid with
  | none => some (false, w)
  | some user =>
    match send w user.stop with
    | none => none
    | some w1 => some (true, { w1 with users := w1.users.erase userid })

/-- The loop of `RemoveUsers` (lines 126-129) over the entries in the order
`range` delivers them. `none`: the loop is blocked at line 127. -/
def removeLoop : List (Sigma fun _ : String => User) → World → Option World
  | [], w => some w
  | e :: es, w =>
    match send w e.2.stop with
    | none => none
    | some w1 => removeLoop es { w1 with users := w1.users.erase e.1 }

/-- The method `SafeUsers.RemoveUsers` (lines 122-130), with `range` visiting
the entries in the order `order`. -/
def RemoveUsersIn (order : List (Sigma fun _ : String => User)) (w : World) : Option World :=
  removeLoop order w

/-- The method `SafeUsers.RemoveUsers` with the entries visited in stored order. -/
def RemoveUsers (w : World) : Option World :=
  RemoveUsersIn w.users.entries w

/-- The method `RemoveUser` applied once to each of the ids `ids`, in order;
`none` as soon as one call is blocked. -/
def removeEach : List String → World → Option World
  | [], w => some w
  | userid :: rest, w =>
    match RemoveUser w userid with
    | none => none
    | some r => removeEach rest r.2

/-! ## URLs -/

/-- The fields of `*url.URL` the program touches (`Scheme`, `Path`) and the
authority between them. -/
structure URL where
  Scheme : String
  Host : String
  Path : String
deriving DecidableEq, Repr

/-- The functions of `net/url` and `path` the program calls; they are library
code, taken as parameters. `Parse` is `url.Parse` (`none` for a non-nil error),
`Render` is `(*URL).String`, `Join` is `path.Join`. -/
structure UrlLib where
  Parse : String → Option URL
  Render : URL → String
  Join : String → String → String

/-- The scheme rewrite of `newClient` (lines 207-211). -/
def workerScheme (scheme : String) : String :=
  if scheme = "http" then "ws" else "wss"

/-- The scheme rewrite of `ApiServer` (lines 319-323). -/
def apiScheme (scheme : String) : String :=
  if scheme = "ws" then "http" else if scheme = "wss" then "https" else scheme

/-- The realtime-transport equivalent of a scheme, in the words of the
specification (`http↔ws`, `https↔wss`): the websocket scheme of the same
security level; other schemes have none. -/
def realtimeEquivalent (scheme : String) : Option String :=
  if scheme = "http" ∨ scheme = "ws" then some "ws"
  else if scheme = "https" ∨ scheme = "wss" then some "wss"
  else none

/-- The loop of `getScheme` in `net/url`: `seen` holds the bytes already
accepted (latest first), the last argument the bytes still to read. `none` is
the error "missing protocol scheme"; otherwise the scheme and what follows. -/
def getSchemeLoop (raw : List Char) : List Char → List Char → Option (List Char × List Char)
  | _, [] => some ([], raw)
  | seen, c :: cs =>
    if c.isAlpha then getSchemeLoop raw (c :: seen) cs
    else if c.isDigit || c = '+' || c = '-' || c = '.' then
      if seen = [] then some ([], raw) else getSchemeLoop raw (c :: seen) cs
    else if c = ':' then
      if seen = [] then none else some (seen.reverse, cs)
    else some ([], raw)

/-- A fragment of `url.Parse`, for concrete runs: control characters and a
leading colon are errors as in `net/url`; a scheme is lower-cased; after `//`
the authority runs to the next `/` and the path is the remainder. It agrees
with `net/url` on URLs of the shape `scheme://host/path` without user
information, query, fragment or escapes, and on the rejected inputs. -/
def parseUrl (rawURL : String) : Option URL :=
  if rawURL.data.any (fun c => decide (c.toNat < 32) || decide (c.toNat = 127)) then none
  else
    match getSchemeLoop rawURL.data [] rawURL.data with
    | none => none
    | some (scheme, rest) =>
      let scheme := String.mk (scheme.map Char.toLower)
      match rest with
      | '/' :: '/' :: more =>
        some ⟨scheme, String.mk (more.takeWhile (fun c => c != '/')),
          String.mk (more.dropWhile (fun c => c != '/'))⟩
      | _ => some ⟨scheme, "", String.mk rest⟩

/-- A fragment of `(*URL).String` for URLs with a scheme and a host. -/
def renderUrl (u : URL) : String :=
  u.Scheme ++ "://" ++ u.Host ++ u.Path

/-- A fragment of `path.Join` for a clean first element (empty, or absolute
without a trailing slash) and an absolute clean second element. -/
def joinPath (a b : String) : String :=
  a ++ b

/-- The concrete library fragment used in concrete runs. -/
def goUrl : UrlLib := ⟨parseUrl, renderUrl, joinPath⟩

/-! ## The session worker -/

/-- What the libraries answer to one run of `newClient`: the error of
`cookiejar.New` (line 192), of `client.Connect` (line 225), of
`client.NewSubscription` (line 230) and of `sub.Subscribe` (line 242); `none`
is a nil error. -/
structure ClientOutcomes where
  jarErr : Option String
  connectErr : Option String
  newSubscriptionErr : Option String
  subscribeErr : Option String
deriving DecidableEq, Repr

/-- How far one run of `newClient` gets before it would block: `fatal` is
`log.Fatal` at line 194 (the process exits), `returned` the `return` at line
200, `waiting` the `select` at line 245, with the endpoint given to
`centrifuge.New` (line 214) and the channel name given to
`client.NewSubscription` (line 230). -/
inductive Reached where
  | fatal
  | returned
  | waiting (endpoint channel : String)
deriving DecidableEq, Repr

/-- The result of a run of `newClient` up to its `select`: the place reached
and the lines logged. -/
structure Startup where
  reached : Reached
  logs : List String
deriving DecidableEq, Repr

/-- Lines 220-245 of `newClient`, after its Init: the handlers, `Connect` with
its error logged (225-228), `NewSubscription` with its error logged (230-233),
the subscription handlers, `Subscribe` with its error dropped (242), then the
`select`. None of these lines returns or ends the process; every call in them
is a call into the client library, taken to give back its answer. -/
def connectAndSubscribe (o : ClientOutcomes) (userid endpoint : String) : Startup :=
  let logConnect :=
    match o.connectErr with
    | some err => ["[User " ++ userid ++ "] Connection with centrifugo error: " ++ err ++ "\n"]
    | none => []
  let logSubscription :=
    match o.newSubscriptionErr with
    | some err =>
      ["[User " ++ userid ++ "] Subscription to centrifugo channel error: " ++ err ++ "\n"]
    | none => []
  ⟨Reached.waiting endpoint ("#" ++ userid), logConnect ++ logSubscription⟩

/-- The function `newClient` (lines 191-251) up to its `select`. -/
def newClient (lib : UrlLib) (o : ClientOutcomes) (userid centrifugoUrl : String)
    (_cookies : List Cookie) : Startup :=
  match o.jarErr with
  | some err => ⟨Reached.fatal, [err]⟩
  | none =>
    match lib.Parse centrifugoUrl with
    | none => ⟨Reached.returned, ["Can't parse centrifugoUrl " ++ centrifugoUrl ++ "\n"]⟩
    | some cent =>
      let cent1 := { cent with Scheme := workerScheme cent.Scheme }
      let cent2 := { cent1 with Path := lib.Join cent1.Path "/connection/websocket" }
      connectAndSubscribe o userid (lib.Render cent2)

/-- The loop of lines 244-250: one pass of the `select` with what the channel
`stop` delivers; `none` is no value yet. The worker stays in the `select`
until a value arrives, then goes on to lines 247-248. -/
def waitLoop (received : Option Int) : Phase :=
  match received with
  | none => Phase.waiting
  | some _ => Phase.stopping

/-- The effect of a worker's run up to its `select` on its record; `none` when
the run ends the process (`log.Fatal`). -/
def startWorker (lib : UrlLib) (o : ClientOutcomes) (k : Worker) : Option Worker :=
  match (newClient lib o k.userid k.centrifugoUrl k.cookies).reached with
  | Reached.waiting _ _ => some { k with phase := Phase.waiting }
  | Reached.returned => some { k with phase := Phase.exited }
  | Reached.fatal => none

/-- One atomic step of the running process: a registry method called by the API
or by an event handler of the client library, a `RemoveUsers` sweep that has
completed `n` passes of its loop, a worker running from its start to its
`select` or its `return`, or a worker that has received on its stop channel
running lines 247-248 and its deferred function to its end. A run that ends
the process has no successor. -/
inductive Step (lib : UrlLib) : World → World → Prop where
  | addUser (w : World) (userid centrifugoUrl : String) (cookies : List Cookie) :
      Step lib w (AddUser w userid centrifugoUrl cookies).2
  | removeUser (w : World) (userid : String) (b : Bool) (w1 : World) :
      RemoveUser w userid = some (b, w1) → Step lib w w1
  | removeUsers (w : World) (order : List (Sigma fun _ : String => User)) (n : Nat)
      (w1 : World) :
      order.Perm w.users.entries → RemoveUsersIn (order.take n) w = some w1 → Step lib w w1
  | setConnected (w : World) (userid : String) (state : Bool) :
      Step lib w (SetConnected w userid state)
  | setSubscribed (w : World) (userid : String) (state : Bool) :
      Step lib w (SetSubscribed w userid state)
  | worker (w : World) (i : Nat) (k k1 : Worker) (o : ClientOutcomes) :
      w.workers.get? i = some k → k.phase = Phase.aboutToRun →
      startWorker lib o k = some k1 → Step lib w { w with workers := w.workers.set i k1 }
  | workerExit (w : World) (i : Nat) (k : Worker) :
      w.workers.get? i = some k → k.phase = Phase.stopping →
      Step lib w { w with workers := w.workers.set i { k with phase := Phase.exited } }

/-- The states the process can be in, from the empty registry. -/
def Reachable (lib : UrlLib) (w : World) : Prop :=
  Relation.ReflTransGen (Step lib) World.init w

/-! ## The `connection.add` branch of `ApiServer` -/

/-- The Go `type Settings struct`. -/
structure Settings where
  LogFilename : String
  HTTPAddr : String
  CentrifugoUrl : String
deriving DecidableEq, Repr

/-- The Go `type RequestAdd struct`; `Many` is a Go `int`. -/
structure RequestAdd where
  Id : String
  Many : Int
  CentrifugoUrl : String
  Cookie : String
deriving DecidableEq, Repr

/-- What the add branch reads of `r *http.Request`: the method, the error of
`ioutil.ReadAll(r.Body)`, the result of `json.Unmarshal` on the body, and
`r.Cookies()`. -/
structure Request where
  Method : String
  readErr : Option String
  json : Except String RequestAdd
  Cookies : List Cookie

/-- What the handler writes to `w http.ResponseWriter`: the status (200 unless
`WriteHeader` was called) and the strings written, in order. -/
structure Response where
  status : Nat
  body : List String
deriving DecidableEq, Repr

/-- One call of `AddUser` with its message (lines 345-352 and 358-365): the
string written to the response and the state after the call. -/
def addMessage (w : World) (userid rawCentrifugoUrl : String) (cookies : List Cookie) :
    String × World :=
  let r := AddUser w userid rawCentrifugoUrl cookies
  let result := if r.1 then "added to " ++ rawCentrifugoUrl else "already exists"
  ("User " ++ userid ++ " is " ++ result ++ "\n", r.2)

/-- The loop of lines 343-354 over the values of `i` still to come;
`fmt.Sprintf("%d", i)` is the decimal numeral of `i`. -/
def bulkLoop (rawCentrifugoUrl : String) (cookies : List Cookie) :
    List Nat → World → List String × World
  | [], w => ([], w)
  | i :: rest, w =>
    let m := addMessage w (toString i) rawCentrifugoUrl cookies
    let r := bulkLoop rawCentrifugoUrl cookies rest m.2
    (m.1 :: r.1, r.2)

/-- The case `"connection.add"` of `ApiServer` (lines 273-366). `readCookies`
is `http.Request.Cookies` on a request whose only header is `Cookie: s`
(lines 328-333), library code taken as a parameter. -/
def connectionAdd (lib : UrlLib) (readCookies : String → List Cookie) (settings : Settings)
    (r : Request) (w : World) : Response × World :=
  if r.Method ≠ "POST" then (⟨500, ["Only POST is allowed"]⟩, w)
  else
    match r.readErr with
    | some err => (⟨500, ["Can't read the body: " ++ err]⟩, w)
    | none =>
      match r.json with
      | Except.error err => (⟨500, ["Json body parse error: " ++ err]⟩, w)
      | Except.ok requestAdd =>
        if requestAdd.Id = "" ∧ requestAdd.Many = 0 then
          (⟨500, ["User ID is not specified"]⟩, w)
        else
          let rawCentrifugoUrl :=
            if requestAdd.CentrifugoUrl ≠ "" then requestAdd.CentrifugoUrl
            else settings.CentrifugoUrl
          if rawCentrifugoUrl = "" then (⟨500, ["Centrifugo Url is not specified"]⟩, w)
          else
            match lib.Parse rawCentrifugoUrl with
            | none => (⟨500, ["Can't parse centrifugoUrl <nil>"]⟩, w)
            | some centrifugoUrl =>
              let rewritten :=
                lib.Render { centrifugoUrl with Scheme := apiScheme centrifugoUrl.Scheme }
              let cookies :=
                if requestAdd.Cookie ≠ "" then readCookies requestAdd.Cookie else r.Cookies
              if cookies.length = 0 then (⟨500, ["Cookies not found"]⟩, w)
              else if requestAdd.Many > 0 then
                let r1 := bulkLoop rewritten cookies (List.range requestAdd.Many.toNat) w
                (⟨200, r1.1⟩, r1.2)
              else
                let m := addMessage w requestAdd.Id rewritten cookies
                (⟨200, [m.1]⟩, m.2)

/-! ## Concrete states and inputs -/

/-- A cookie for concrete runs. -/
def sampleCookies : List Cookie := [⟨"session", "abc"⟩]

/-- Library answers without any error. -/
def noErrors : ClientOutcomes := ⟨none, none, none, none⟩

/-- Library answers where `Connect`, `NewSubscription` and `Subscribe` all fail. -/
def allFail : ClientOutcomes :=
  ⟨none, some "dial tcp: connection refused", some "duplicate subscription",
    some "client closed"⟩

/-- The state after `AddUser("u", ":", cookies)` on the empty registry. -/
def addedBadUrl : World := (AddUser World.init "u" ":" sampleCookies).2

/-- The state after the worker of `addedBadUrl` has run: `url.Parse(":")` fails
and `newClient` returns at line 200; the map entry stays. -/
def orphaned : World :=
  { addedBadUrl with
    workers := addedBadUrl.workers.set 0 ⟨"u", ":", 0, sampleCookies, Phase.exited⟩ }

/-- The state after `AddUser("u", "http://localhost:8000", cookies)` on the empty
registry and the worker's run to its `select`. -/
def settled : World :=
  let w := (AddUser World.init "u" "http://localhost:8000" sampleCookies).2
  { w with workers := w.workers.set 0 ⟨"u", "http://localhost:8000", 0, sampleCookies, Phase.waiting⟩ }

/-- The state after `RemoveUser("u")` on `settled`: the entry is deleted and
the worker, past its receive, has lines 247-248 and its deferred function
still to run. -/
def cancelled : World :=
  match RemoveUser settled "u" with
  | some r => r.2
  | none => settled

/-- The state after `AddUser("u", ...)` on `cancelled`. -/
def readded : World := (AddUser cancelled "u" "http://localhost:8000" sampleCookies).2

/-- An add request for the single id "u" with the broker URL `rawUrl`. -/
def singleAdd (rawUrl : String) : Request :=
  ⟨"POST", none, Except.ok ⟨"u", 0, rawUrl, ""⟩, sampleCookies⟩

/-- An add request with an empty id and the bulk count `-1`. -/
def negativeBulk : Request :=
  ⟨"POST", none, Except.ok ⟨"", -1, "http://localhost:8000", ""⟩, sampleCookies⟩

/-- A bulk add request for two sessions. -/
def bulkTwo : Request :=
  ⟨"POST", none, Except.ok ⟨"", 2, "ws://localhost:8000", ""⟩, sampleCookies⟩

/-- Settings without a configured broker URL. -/
def emptySettings : Settings := ⟨"", ":8080", ""⟩

/-- Two sessions "a" and "b", "a" connected, both workers at their `select`. -/
def settledTwo : World :=
  let w1 := (AddUser World.init "a" "http://localhost:8000" sampleCookies).2
  let w2 := (AddUser w1 "b" "http://localhost:8000" sampleCookies).2
  let w3 := SetConnected w2 "a" true
  { w3 with workers := w3.workers.map (fun k => { k with phase := Phase.waiting }) }

/-- What ties the map to the workers in every state of a run: the stop
channels of the workers are distinct and below the allocator; every session
has a worker with its id on its channel, which has not received on it and is
gone only if its URL did not parse; every worker that has not received on its
channel and is not gone has the session of its id, on its channel. -/
structure Inv (lib : UrlLib) (w : World) : Prop where
  fresh : ∀ k ∈ w.workers, k.stop < w.nextChan
  distinct : (w.workers.map (fun k => k.stop)).Nodup
  bound : ∀ userid u, w.users.lookup userid = some u →
    ∃ k ∈ w.workers, k.userid = userid ∧ k.stop = u.stop ∧ k.phase ≠ Phase.stopping ∧
      (k.phase = Phase.exited → lib.Parse k.centrifugoUrl = none)
  live : ∀ k ∈ w.workers, k.phase = Phase.aboutToRun ∨ k.phase = Phase.waiting →
    ∃ u, w.users.lookup k.userid = some u ∧ u.stop = k.stop

/-- The session `userid` can no longer be cancelled: the invariant holds, the
session is in the map, and the worker on its stop channel is gone without
having received on it. -/
def Stuck (lib : UrlLib) (w : World) (userid : String) : Prop :=
  Inv lib w ∧ ∃ u, w.users.lookup userid = some u ∧
    ∃ k ∈ w.workers, k.stop = u.stop ∧ k.phase = Phase.exited

/-- The value of a decimal digit character. -/
def digitVal (c : Char) : Nat := c.toNat - 48

/-- The number a string of decimal digits denotes. -/
def decodeDigits (cs : List Char) : Nat :=
  cs.foldl (fun acc c => acc * 10 + digitVal c) 0

/-- The line the add branch writes for one id (line 351, with lines 347-349),
given whether the id was absent when `AddUser` was called. -/
def addLine (rawCentrifugoUrl userid : String) (absent : Bool) : String :=
  "User " ++ userid ++ " is " ++
    (if absent then "added to " ++ rawCentrifugoUrl else "already exists") ++ "\n"

/-! ## Theorems -/

/-! ### Counters -/

theorem countLoop_foldl (l : List (Sigma fun _ : String => User)) (a b : Nat) :
    l.foldl
      (fun (acc : Nat × Nat) e =>
        let connected := if e.2.isConnected then acc.1 + 1 else acc.1
        let subscribed := if e.2.isSubscribed then acc.2 + 1 else acc.2
        (connected, subscribed))
      (a, b)
    = (a + l.countP (fun e => e.2.isConnected), b + l.countP (fun e => e.2.isSubscribed)) := by
  induction l generalizing a b with
  | nil => simp
  | cons e es ih =>
    rw [List.foldl_cons]
    simp only []
    rw [ih]
    cases hc : e.2.isConnected <;> cases hs : e.2.isSubscribed <;>
      simp [List.countP_cons, hc, hs, Nat.add_assoc, Nat.add_comm]

theorem countLoop_eq (l : List (Sigma fun _ : String => User)) :
    countLoop l = (l.countP (fun e => e.2.isConnected), l.countP (fun e => e.2.isSubscribed)) := by
  unfold countLoop
  rw [countLoop_foldl]
  simp

/-! ### Status updates -/

theorem lookup_insert_self (m : Users) (k : String) (u : User) :
    (m.insert k u).lookup k = some u :=
  AList.lookup_insert m

theorem mem_insert_of_lookup (m : Users) (k : String) (u v : User)
    (h : m.lookup k = some u) (j : String) : j ∈ m.insert k v ↔ j ∈ m := by
  rw [AList.mem_insert]
  constructor
  · rintro (rfl | hj)
    · exact AList.lookup_isSome.1 (by simp [h])
    · exact hj
  · exact Or.inr

theorem SetConnected_workers (w : World) (userid : String) (b : Bool) :
    (SetConnected w userid b).workers = w.workers := by
  cases h : w.users.lookup userid <;> simp [SetConnected, h]

theorem SetSubscribed_workers (w : World) (userid : String) (b : Bool) :
    (SetSubscribed w userid b).workers = w.workers := by
  cases h : w.users.lookup userid <;> simp [SetSubscribed, h]

theorem SetConnected_lookup_stop (w : World) (userid : String) (b : Bool) (k : String) :
    ((SetConnected w userid b).users.lookup k).map (fun u => u.stop) =
      (w.users.lookup k).map (fun u => u.stop) := by
  cases h : w.users.lookup userid with
  | none => simp [SetConnected, h]
  | some u =>
    have e : SetConnected w userid b =
        ⟨w.users.insert userid { u with isConnected := b }, w.nextChan, w.workers, w.sent⟩ := by
      simp [SetConnected, h]
    rw [e]
    by_cases hk : k = userid
    · subst hk
      rw [AList.lookup_insert, h]
      rfl
    · rw [AList.lookup_insert_ne hk]

theorem SetSubscribed_lookup_stop (w : World) (userid : String) (b : Bool) (k : String) :
    ((SetSubscribed w userid b).users.lookup k).map (fun u => u.stop) =
      (w.users.lookup k).map (fun u => u.stop) := by
  cases h : w.users.lookup userid with
  | none => simp [SetSubscribed, h]
  | some u =>
    have e : SetSubscribed w userid b =
        ⟨w.users.insert userid { u with isSubscribed := b }, w.nextChan, w.workers, w.sent⟩ := by
      simp [SetSubscribed, h]
    rw [e]
    by_cases hk : k = userid
    · subst hk
      rw [AList.lookup_insert, h]
      rfl
    · rw [AList.lookup_insert_ne hk]

theorem lookup_of_map_stop (m1 m2 : Users) (k : String) (u : User)
    (h : (m1.lookup k).map (fun u => u.stop) = (m2.lookup k).map (fun u => u.stop))
    (hu : m2.lookup k = some u) : ∃ u1, m1.lookup k = some u1 ∧ u1.stop = u.stop := by
  rw [hu] at h
  cases h1 : m1.lookup k with
  | none => rw [h1] at h; cases h
  | some u1 =>
    rw [h1] at h
    simp only [Option.map_some', Option.some.injEq] at h
    exact ⟨u1, rfl, h⟩

/-! ### Adding a session -/

theorem AddUser_absent (w : World) (userid url : String) (cookies : List Cookie)
    (h : w.users.lookup userid = none) :
    AddUser w userid url cookies =
      (true,
        { users := w.users.insert userid ⟨userid, w.nextChan, false, false⟩
          nextChan := w.nextChan + 1
          workers := w.workers ++ [⟨userid, url, w.nextChan, cookies, Phase.aboutToRun⟩]
          sent := w.sent }) := by
  simp [AddUser, h]

theorem AddUser_present (w : World) (userid url : String) (cookies : List Cookie) (u : User)
    (h : w.users.lookup userid = some u) : AddUser w userid url cookies = (false, w) := by
  simp [AddUser, h]

theorem AddUser_lookup_self (w : World) (userid url : String) (cookies : List Cookie) :
    (AddUser w userid url cookies).2.users.lookup userid ≠ none := by
  cases h : w.users.lookup userid with
  | none => rw [AddUser_absent w userid url cookies h]; simp [AList.lookup_insert]
  | some u => rw [AddUser_present w userid url cookies u h]; simp [h]

theorem AddUser_lookup_ne (w : World) (userid url : String) (cookies : List Cookie)
    (k : String) (hk : k ≠ userid) :
    (AddUser w userid url cookies).2.users.lookup k = w.users.lookup k := by
  cases h : w.users.lookup userid with
  | none =>
    rw [AddUser_absent w userid url cookies h]
    exact AList.lookup_insert_ne hk
  | some u => rw [AddUser_present w userid url cookies u h]

theorem AddUser_lookup_keep (w : World) (userid url : String) (cookies : List Cookie)
    (k : String) (u : User) (hk : w.users.lookup k = some u) :
    (AddUser w userid url cookies).2.users.lookup k = some u := by
  by_cases h : k = userid
  · subst h
    rw [AddUser_present w k url cookies u hk]
    exact hk
  · rw [AddUser_lookup_ne w userid url cookies k h]
    exact hk

/-! ### The rendezvous on a stop channel -/

theorem handoff_eq_none_iff (ws : List Worker) (ch : Nat) :
    handoff ws ch = none ↔ ∀ k ∈ ws, ¬ (k.stop = ch ∧ k.phase = Phase.waiting) := by
  induction ws with
  | nil => simp [handoff]
  | cons k ks ih =>
    by_cases hk : k.stop = ch ∧ k.phase = Phase.waiting
    · simp [handoff, hk]
    · simp only [handoff, hk, if_false, Option.map_eq_none', ih, List.mem_cons, forall_eq_or_imp]
      simp [hk]

theorem handoff_of_waiting (ws : List Worker) (ch : Nat)
    (h : ∃ k ∈ ws, k.stop = ch ∧ k.phase = Phase.waiting) :
    ∃ ws1, handoff ws ch = some ws1 := by
  cases hh : handoff ws ch with
  | some ws1 => exact ⟨ws1, rfl⟩
  | none =>
    obtain ⟨k, hk, hw⟩ := h
    exact absurd hw ((handoff_eq_none_iff ws ch).1 hh k hk)

theorem handoff_split (ws ws1 : List Worker) (ch : Nat) (h : handoff ws ch = some ws1) :
    ∃ l k r, ws = l ++ k :: r ∧ ws1 = l ++ { k with phase := Phase.stopping } :: r ∧
      k.stop = ch ∧ k.phase = Phase.waiting ∧
      ∀ j ∈ l, ¬ (j.stop = ch ∧ j.phase = Phase.waiting) := by
  induction ws generalizing ws1 with
  | nil => simp [handoff] at h
  | cons k ks ih =>
    by_cases hk : k.stop = ch ∧ k.phase = Phase.waiting
    · rw [handoff, if_pos hk] at h
      cases h
      exact ⟨[], k, ks, rfl, rfl, hk.1, hk.2, by simp⟩
    · simp only [handoff, hk, if_false, Option.map_eq_some'] at h
      obtain ⟨ks1, hks, rfl⟩ := h
      obtain ⟨l, k0, r, e1, e2, h1, h2, h3⟩ := ih ks1 hks
      refine ⟨k :: l, k0, r, by rw [e1]; rfl, by rw [e2]; rfl, h1, h2, ?_⟩
      intro j hj
      rcases List.mem_cons.1 hj with rfl | hj
      · exact hk
      · exact h3 j hj

theorem handoff_map_stop (ws ws1 : List Worker) (ch : Nat) (h : handoff ws ch = some ws1) :
    ws1.map (fun k => k.stop) = ws.map (fun k => k.stop) := by
  obtain ⟨l, k, r, e1, e2, -, -, -⟩ := handoff_split ws ws1 ch h
  rw [e1, e2]
  simp

theorem handoff_mem_of_ne (ws ws1 : List Worker) (ch : Nat) (h : handoff ws ch = some ws1)
    (k : Worker) (hk : k ∈ ws) (hne : k.stop ≠ ch) : k ∈ ws1 := by
  obtain ⟨l, k0, r, e1, e2, h1, -, -⟩ := handoff_split ws ws1 ch h
  rw [e1] at hk
  rw [e2]
  rcases List.mem_append.1 hk with hl | hr
  · exact List.mem_append_left _ hl
  · rcases List.mem_cons.1 hr with rfl | hr
    · exact absurd h1 hne
    · exact List.mem_append_right _ (List.mem_cons_of_mem _ hr)

theorem send_eq_some (w : World) (ch : Nat) (ws1 : List Worker)
    (h : handoff w.workers ch = some ws1) :
    send w ch = some { w with workers := ws1, sent := w.sent ++ [ch] } := by
  simp [send, h]

theorem send_eq_none (w : World) (ch : Nat) (h : handoff w.workers ch = none) :
    send w ch = none := by
  simp [send, h]

/-! ### Removing every session -/

theorem users_eq_empty (m : Users) (h : ∀ k, m.lookup k = none) : m = ∅ := by
  apply AList.ext
  rw [AList.empty_entries]
  cases he : m.entries with
  | nil => rfl
  | cons e es =>
    have hm : e.2 ∈ m.lookup e.1 := AList.mem_lookup_iff.2 (by rw [he]; exact List.mem_cons_self _ _)
    rw [h e.1] at hm
    cases hm

theorem lookup_of_mem_entries (m : Users) (e : Sigma fun _ : String => User)
    (h : e ∈ m.entries) : m.lookup e.1 = some e.2 :=
  AList.mem_lookup_iff.2 h

theorem removeLoop_spec (es : List (Sigma fun _ : String => User)) :
    ∀ w : World, es.NodupKeys → (es.map (fun e => e.2.stop)).Nodup →
      (∀ e ∈ es, w.users.lookup e.1 = some e.2) →
      (∀ e ∈ es, ∃ k ∈ w.workers, k.stop = e.2.stop ∧ k.phase = Phase.waiting) →
      ∃ w1, removeLoop es w = some w1 ∧ removeEach es.keys w = some w1 ∧
        w1.sent = w.sent ++ es.map (fun e => e.2.stop) ∧ w1.nextChan = w.nextChan ∧
        ∀ k, w1.users.lookup k = if k ∈ es.keys then none else w.users.lookup k := by
  induction es with
  | nil =>
    intro w _ _ _ _
    exact ⟨w, rfl, rfl, by simp, rfl, by simp⟩
  | cons e es ih =>
    intro w hkeys hstops hlook hready
    obtain ⟨ws1, hws⟩ := handoff_of_waiting w.workers e.2.stop (hready e (List.mem_cons_self _ _))
    have hsend := send_eq_some w e.2.stop ws1 hws
    have hkeys1 : es.NodupKeys := List.nodupKeys_of_nodupKeys_cons hkeys
    have hnotin : e.1 ∉ es.keys := List.not_mem_keys_of_nodupKeys_cons hkeys
    rw [List.map_cons, List.nodup_cons] at hstops
    obtain ⟨w1, h1, h2, h3, h4, h5⟩ :=
      ih ⟨w.users.erase e.1, w.nextChan, ws1, w.sent ++ [e.2.stop]⟩ hkeys1 hstops.2
        (by
          intro e1 he1
          have hne : e1.1 ≠ e.1 := by
            intro heq
            exact hnotin (heq ▸ List.mem_keys_of_mem he1)
          show (w.users.erase e.1).lookup e1.1 = some e1.2
          rw [AList.lookup_erase_ne hne]
          exact hlook e1 (List.mem_cons_of_mem _ he1))
        (by
          intro e1 he1
          obtain ⟨k, hk, hks, hkp⟩ := hready e1 (List.mem_cons_of_mem _ he1)
          have hne : k.stop ≠ e.2.stop := by
            intro heq
            apply hstops.1
            rw [List.mem_map]
            exact ⟨e1, he1, by rw [← hks, heq]⟩
          exact ⟨k, handoff_mem_of_ne _ _ _ hws k hk hne, hks, hkp⟩)
    refine ⟨w1, ?_, ?_, ?_, h4, ?_⟩
    · simp only [removeLoop, hsend]
      exact h1
    · simp only [List.keys_cons, removeEach, RemoveUser, hlook e (List.mem_cons_self _ _), hsend]
      exact h2
    · rw [h3]
      simp
    · intro k
      rw [h5 k]
      by_cases hk : k = e.1
      · subst hk
        simp [AList.lookup_erase]
      · by_cases hk1 : k ∈ es.keys
        · simp [hk1]
        · simp [hk, hk1, AList.lookup_erase_ne hk]

/-! ### The invariant tying the map to the workers -/

theorem stop_ne_of_nodup_middle (l r : List Worker) (k : Worker)
    (h : ((l ++ k :: r).map (fun k => k.stop)).Nodup) (j : Worker) (hj : j ∈ l ∨ j ∈ r) :
    j.stop ≠ k.stop := by
  rw [List.map_append, List.map_cons, List.nodup_middle, List.nodup_cons] at h
  intro heq
  apply h.1
  rw [← heq, ← List.map_append, List.mem_map]
  exact ⟨j, List.mem_append.2 hj, rfl⟩

theorem mem_middle_iff (l r : List Worker) (k j : Worker) :
    j ∈ l ++ k :: r ↔ j = k ∨ (j ∈ l ∨ j ∈ r) := by
  simp only [List.mem_append, List.mem_cons]
  tauto

theorem set_split (ws : List Worker) (i : Nat) (k k1 : Worker) (h : ws.get? i = some k) :
    ∃ l r, ws = l ++ k :: r ∧ ws.set i k1 = l ++ k1 :: r := by
  induction ws generalizing i with
  | nil => simp at h
  | cons a as ih =>
    cases i with
    | zero =>
      simp only [List.get?_cons_zero, Option.some.injEq] at h
      subst h
      exact ⟨[], as, rfl, rfl⟩
    | succ i =>
      simp only [List.get?_cons_succ] at h
      obtain ⟨l, r, e1, e2⟩ := ih i h
      exact ⟨a :: l, r, by rw [e1]; rfl, by rw [List.set_cons_succ, e2]; rfl⟩

theorem Inv_init (lib : UrlLib) : Inv lib World.init :=
  ⟨by simp [World.init], by simp [World.init], by simp [World.init], by simp [World.init]⟩

theorem Inv_start (lib : UrlLib) (w : World) (hI : Inv lib w) (l r : List Worker)
    (k : Worker) (p : Phase) (sent : List Nat) (hws : w.workers = l ++ k :: r)
    (hlive : k.phase = Phase.aboutToRun) (hp : p ≠ Phase.stopping)
    (hexit : p = Phase.exited → lib.Parse k.centrifugoUrl = none) :
    Inv lib ⟨w.users, w.nextChan, l ++ { k with phase := p } :: r, sent⟩ := by
  have hfresh := hI.fresh
  have hdistinct := hI.distinct
  have hbound := hI.bound
  have hlv := hI.live
  rw [hws] at hfresh hdistinct hbound hlv
  refine ⟨?_, ?_, ?_, ?_⟩
  · intro j hj
    rcases (mem_middle_iff l r _ j).1 hj with rfl | hj
    · exact hfresh k ((mem_middle_iff l r k k).2 (Or.inl rfl))
    · exact hfresh j ((mem_middle_iff l r k j).2 (Or.inr hj))
  · simpa using hdistinct
  · intro userid u hu
    obtain ⟨j, hj, h1, h2, h3, h4⟩ := hbound userid u hu
    rcases (mem_middle_iff l r k j).1 hj with rfl | hj
    · exact ⟨{ j with phase := p }, (mem_middle_iff l r _ _).2 (Or.inl rfl), h1, h2, hp, hexit⟩
    · exact ⟨j, (mem_middle_iff l r _ j).2 (Or.inr hj), h1, h2, h3, h4⟩
  · intro j hj hjl
    rcases (mem_middle_iff l r _ j).1 hj with rfl | hj
    · exact hlv k ((mem_middle_iff l r k k).2 (Or.inl rfl)) (Or.inl hlive)
    · exact hlv j ((mem_middle_iff l r k j).2 (Or.inr hj)) hjl

theorem Inv_finish (lib : UrlLib) (w : World) (hI : Inv lib w) (l r : List Worker)
    (k : Worker) (sent : List Nat) (hws : w.workers = l ++ k :: r)
    (hstop : k.phase = Phase.stopping) :
    Inv lib ⟨w.users, w.nextChan, l ++ { k with phase := Phase.exited } :: r, sent⟩ := by
  have hfresh := hI.fresh
  have hdistinct := hI.distinct
  have hbound := hI.bound
  have hlv := hI.live
  rw [hws] at hfresh hdistinct hbound hlv
  refine ⟨?_, ?_, ?_, ?_⟩
  · intro j hj
    rcases (mem_middle_iff l r _ j).1 hj with rfl | hj
    · exact hfresh k ((mem_middle_iff l r k k).2 (Or.inl rfl))
    · exact hfresh j ((mem_middle_iff l r k j).2 (Or.inr hj))
  · simpa using hdistinct
  · intro userid u hu
    obtain ⟨j, hj, h1, h2, h3, h4⟩ := hbound userid u hu
    rcases (mem_middle_iff l r k j).1 hj with rfl | hj
    · exact absurd hstop h3
    · exact ⟨j, (mem_middle_iff l r _ j).2 (Or.inr hj), h1, h2, h3, h4⟩
  · intro j hj hjl
    rcases (mem_middle_iff l r _ j).1 hj with rfl | hj
    · rcases hjl with h | h <;> cases h
    · exact hlv j ((mem_middle_iff l r k j).2 (Or.inr hj)) hjl

theorem Inv_remove (lib : UrlLib) (w : World) (hI : Inv lib w) (userid : String) (u : User)
    (hu : w.users.lookup userid = some u) (l r : List Worker) (k : Worker) (sent : List Nat)
    (hws : w.workers = l ++ k :: r) (hk : k.stop = u.stop) :
    Inv lib ⟨w.users.erase userid, w.nextChan, l ++ { k with phase := Phase.stopping } :: r,
      sent⟩ := by
  have hfresh := hI.fresh
  have hdistinct := hI.distinct
  have hbound := hI.bound
  have hlv := hI.live
  rw [hws] at hfresh hdistinct hbound hlv
  have hkid : k.userid = userid := by
    obtain ⟨j, hj, h1, h2, -, -⟩ := hbound userid u hu
    rcases (mem_middle_iff l r k j).1 hj with rfl | hj
    · exact h1
    · exact absurd (h2.trans hk.symm) (stop_ne_of_nodup_middle l r k hdistinct j hj)
  refine ⟨?_, ?_, ?_, ?_⟩
  · intro j hj
    rcases (mem_middle_iff l r _ j).1 hj with rfl | hj
    · exact hfresh k ((mem_middle_iff l r k k).2 (Or.inl rfl))
    · exact hfresh j ((mem_middle_iff l r k j).2 (Or.inr hj))
  · simpa using hdistinct
  · intro id1 u1 hu1
    have hne : id1 ≠ userid := by
      intro heq
      subst heq
      have h0 : (w.users.erase id1).lookup id1 = some u1 := hu1
      rw [AList.lookup_erase] at h0
      cases h0
    have hu2 : w.users.lookup id1 = some u1 := by
      have h0 : (w.users.erase userid).lookup id1 = some u1 := hu1
      rwa [AList.lookup_erase_ne hne] at h0
    obtain ⟨j, hj, h1, h2, h3, h4⟩ := hbound id1 u1 hu2
    rcases (mem_middle_iff l r k j).1 hj with rfl | hj
    · exact absurd (h1.symm.trans hkid) hne
    · exact ⟨j, (mem_middle_iff l r _ j).2 (Or.inr hj), h1, h2, h3, h4⟩
  · intro j hj hjl
    rcases (mem_middle_iff l r _ j).1 hj with rfl | hj
    · rcases hjl with h | h <;> cases h
    · obtain ⟨u1, h1, h2⟩ := hlv j ((mem_middle_iff l r k j).2 (Or.inr hj)) hjl
      have hne : j.userid ≠ userid := by
        intro heq
        rw [heq, hu] at h1
        cases h1
        exact stop_ne_of_nodup_middle l r k hdistinct j hj (h2.symm.trans hk.symm)
      refine ⟨u1, ?_, h2⟩
      show (w.users.erase userid).lookup j.userid = some u1
      rw [AList.lookup_erase_ne hne]
      exact h1

theorem Inv_users_congr (lib : UrlLib) (w : World) (hI : Inv lib w) (users : Users)
    (h : ∀ k, (users.lookup k).map (fun u => u.stop) = (w.users.lookup k).map (fun u => u.stop)) :
    Inv lib ⟨users, w.nextChan, w.workers, w.sent⟩ := by
  refine ⟨hI.fresh, hI.distinct, ?_, ?_⟩
  · intro userid u hu
    have h0 : users.lookup userid = some u := hu
    have h1 := h userid
    rw [h0] at h1
    cases h2 : w.users.lookup userid with
    | none => rw [h2] at h1; cases h1
    | some u1 =>
      rw [h2] at h1
      simp only [Option.map_some', Option.some.injEq] at h1
      obtain ⟨j, hj, e1, e2, e3, e4⟩ := hI.bound userid u1 h2
      exact ⟨j, hj, e1, e2.trans h1.symm, e3, e4⟩
  · intro j hj hjl
    obtain ⟨u1, e1, e2⟩ := hI.live j hj hjl
    have h1 := h j.userid
    rw [e1] at h1
    cases h2 : users.lookup j.userid with
    | none => rw [h2] at h1; cases h1
    | some u2 =>
      rw [h2] at h1
      simp only [Option.map_some', Option.some.injEq] at h1
      exact ⟨u2, by rw [← h2], h1.trans e2⟩

theorem Inv_SetConnected (lib : UrlLib) (w : World) (hI : Inv lib w) (userid : String)
    (b : Bool) : Inv lib (SetConnected w userid b) := by
  cases h : w.users.lookup userid with
  | none =>
    have e : SetConnected w userid b = w := by simp [SetConnected, h]
    rw [e]
    exact hI
  | some u =>
    have e : SetConnected w userid b =
        ⟨w.users.insert userid { u with isConnected := b }, w.nextChan, w.workers, w.sent⟩ := by
      simp [SetConnected, h]
    rw [e]
    apply Inv_users_congr lib w hI
    intro k
    by_cases hk : k = userid
    · subst hk
      rw [AList.lookup_insert, h]
      rfl
    · rw [AList.lookup_insert_ne hk]

theorem Inv_SetSubscribed (lib : UrlLib) (w : World) (hI : Inv lib w) (userid : String)
    (b : Bool) : Inv lib (SetSubscribed w userid b) := by
  cases h : w.users.lookup userid with
  | none =>
    have e : SetSubscribed w userid b = w := by simp [SetSubscribed, h]
    rw [e]
    exact hI
  | some u =>
    have e : SetSubscribed w userid b =
        ⟨w.users.insert userid { u with isSubscribed := b }, w.nextChan, w.workers, w.sent⟩ := by
      simp [SetSubscribed, h]
    rw [e]
    apply Inv_users_congr lib w hI
    intro k
    by_cases hk : k = userid
    · subst hk
      rw [AList.lookup_insert, h]
      rfl
    · rw [AList.lookup_insert_ne hk]

theorem Inv_AddUser (lib : UrlLib) (w : World) (hI : Inv lib w) (userid url : String)
    (cookies : List Cookie) : Inv lib (AddUser w userid url cookies).2 := by
  cases h : w.users.lookup userid with
  | some u =>
    rw [AddUser_present w userid url cookies u h]
    exact hI
  | none =>
    rw [AddUser_absent w userid url cookies h]
    refine ⟨?_, ?_, ?_, ?_⟩
    · intro j hj
      rcases List.mem_append.1 hj with hj | hj
      · exact Nat.lt_succ_of_lt (hI.fresh j hj)
      · rw [List.mem_singleton] at hj
        subst hj
        exact Nat.lt_succ_self _
    · show ((w.workers ++ [_]).map (fun k : Worker => k.stop)).Nodup
      rw [List.map_append, List.nodup_append]
      refine ⟨hI.distinct, by simp, ?_⟩
      intro c hc hc1
      rw [List.mem_map] at hc
      obtain ⟨j, hj, rfl⟩ := hc
      simp only [List.map_cons, List.map_nil, List.mem_singleton] at hc1
      exact absurd hc1 (Nat.ne_of_lt (hI.fresh j hj))
    · intro id1 u1 hu1
      by_cases hid : id1 = userid
      · subst hid
        have h0 : (w.users.insert id1 ⟨id1, w.nextChan, false, false⟩).lookup id1 = some u1 := hu1
        rw [AList.lookup_insert] at h0
        cases h0
        exact ⟨⟨id1, url, w.nextChan, cookies, Phase.aboutToRun⟩,
          List.mem_append_right _ (List.mem_singleton.2 rfl), rfl, rfl,
          fun hp => Phase.noConfusion hp, fun hp => Phase.noConfusion hp⟩
      · have h0 : (w.users.insert userid ⟨userid, w.nextChan, false, false⟩).lookup id1 =
            some u1 := hu1
        rw [AList.lookup_insert_ne hid] at h0
        obtain ⟨j, hj, e1, e2, e3, e4⟩ := hI.bound id1 u1 h0
        exact ⟨j, List.mem_append_left _ hj, e1, e2, e3, e4⟩
    · intro j hj hjl
      rcases List.mem_append.1 hj with hj | hj
      · obtain ⟨u1, e1, e2⟩ := hI.live j hj hjl
        have hne : j.userid ≠ userid := by
          intro heq
          rw [heq, h] at e1
          cases e1
        refine ⟨u1, ?_, e2⟩
        show (w.users.insert userid _).lookup j.userid = some u1
        rw [AList.lookup_insert_ne hne]
        exact e1
      · rw [List.mem_singleton] at hj
        subst hj
        exact ⟨⟨userid, w.nextChan, false, false⟩, AList.lookup_insert _, rfl⟩

theorem Inv_RemoveUser (lib : UrlLib) (w w1 : World) (hI : Inv lib w) (userid : String)
    (b : Bool) (h : RemoveUser w userid = some (b, w1)) : Inv lib w1 := by
  cases hu : w.users.lookup userid with
  | none =>
    simp only [RemoveUser, hu, Option.some.injEq, Prod.mk.injEq] at h
    rw [← h.2]
    exact hI
  | some u =>
    cases hh : handoff w.workers u.stop with
    | none => simp [RemoveUser, hu, send_eq_none w u.stop hh] at h
    | some ws1 =>
      simp only [RemoveUser, hu, send_eq_some w u.stop ws1 hh, Option.some.injEq,
        Prod.mk.injEq] at h
      obtain ⟨l, k, r, e1, e2, h1, -, -⟩ := handoff_split _ _ _ hh
      rw [← h.2, e2]
      exact Inv_remove lib w hI userid u hu l r k _ e1 h1

theorem Inv_removeLoop (lib : UrlLib) (es : List (Sigma fun _ : String => User)) :
    ∀ w w1 : World, es.NodupKeys → (∀ e ∈ es, w.users.lookup e.1 = some e.2) → Inv lib w →
      removeLoop es w = some w1 → Inv lib w1 := by
  induction es with
  | nil =>
    intro w w1 _ _ hI h
    simp only [removeLoop, Option.some.injEq] at h
    rw [← h]
    exact hI
  | cons e es ih =>
    intro w w1 hkeys hlook hI h
    have hnotin : e.1 ∉ es.keys := List.not_mem_keys_of_nodupKeys_cons hkeys
    cases hh : handoff w.workers e.2.stop with
    | none => simp [removeLoop, send_eq_none w e.2.stop hh] at h
    | some ws1 =>
      simp only [removeLoop, send_eq_some w e.2.stop ws1 hh] at h
      obtain ⟨l, k, r, e1, e2, h1, -, -⟩ := handoff_split _ _ _ hh
      refine ih _ w1 (List.nodupKeys_of_nodupKeys_cons hkeys) ?_ ?_ h
      · intro e0 he0
        have hne : e0.1 ≠ e.1 := by
          intro heq
          exact hnotin (heq ▸ List.mem_keys_of_mem he0)
        show (w.users.erase e.1).lookup e0.1 = some e0.2
        rw [AList.lookup_erase_ne hne]
        exact hlook e0 (List.mem_cons_of_mem _ he0)
      · rw [e2]
        exact Inv_remove lib w hI e.1 e.2 (hlook e (List.mem_cons_self _ _)) l r k _ e1 h1

theorem newClient_returned (lib : UrlLib) (o : ClientOutcomes) (userid url : String)
    (cookies : List Cookie) (h : (newClient lib o userid url cookies).reached = Reached.returned) :
    lib.Parse url = none := by
  unfold newClient at h
  cases hj : o.jarErr with
  | some err => simp [hj] at h
  | none =>
    cases hp : lib.Parse url with
    | none => rfl
    | some cent => simp [hj, hp, connectAndSubscribe] at h

theorem startWorker_spec (lib : UrlLib) (o : ClientOutcomes) (k k1 : Worker)
    (h : startWorker lib o k = some k1) :
    ∃ p, k1 = { k with phase := p } ∧ p ≠ Phase.stopping ∧
      (p = Phase.exited → lib.Parse k.centrifugoUrl = none) := by
  unfold startWorker at h
  cases hr : (newClient lib o k.userid k.centrifugoUrl k.cookies).reached with
  | fatal => simp [hr] at h
  | returned =>
    simp only [hr, Option.some.injEq] at h
    exact ⟨Phase.exited, h.symm, by decide, fun _ => newClient_returned lib o _ _ _ hr⟩
  | waiting endpoint channel =>
    simp only [hr, Option.some.injEq] at h
    exact ⟨Phase.waiting, h.symm, by decide, fun hp => by cases hp⟩

theorem Inv_Step (lib : UrlLib) (w w1 : World) (hI : Inv lib w) (h : Step lib w w1) :
    Inv lib w1 := by
  cases h with
  | addUser userid url cookies => exact Inv_AddUser lib w hI userid url cookies
  | removeUser userid b _ hr => exact Inv_RemoveUser lib w w1 hI userid b hr
  | removeUsers order n _ hperm hr =>
    have hkeys : order.NodupKeys := (List.perm_nodupKeys hperm).2 w.users.nodupKeys
    refine Inv_removeLoop lib (order.take n) w w1 (hkeys.sublist (List.take_sublist n order)) ?_
      hI hr
    intro e he
    exact lookup_of_mem_entries w.users e (hperm.subset (List.mem_of_mem_take he))
  | setConnected userid b => exact Inv_SetConnected lib w hI userid b
  | setSubscribed userid b => exact Inv_SetSubscribed lib w hI userid b
  | worker i k k1 o hget hphase hstart =>
    obtain ⟨p, rfl, hp1, hp2⟩ := startWorker_spec lib o k k1 hstart
    obtain ⟨l, r, e1, e2⟩ := set_split w.workers i k { k with phase := p } hget
    rw [e2]
    exact Inv_start lib w hI l r k p w.sent e1 hphase hp1 hp2
  | workerExit i k hget hphase =>
    obtain ⟨l, r, e1, e2⟩ := set_split w.workers i k { k with phase := Phase.exited } hget
    rw [e2]
    exact Inv_finish lib w hI l r k w.sent e1 hphase

theorem Inv_Reachable (lib : UrlLib) (w : World) (h : Reachable lib w) : Inv lib w := by
  induction h with
  | refl => exact Inv_init lib
  | tail _ hstep ih => exact Inv_Step lib _ _ ih hstep

theorem mem_pendingWorkers (w : World) (userid : String) (k : Worker) :
    k ∈ pendingWorkers w userid ↔
      k ∈ w.workers ∧ k.userid = userid ∧
        (k.phase = Phase.aboutToRun ∨ k.phase = Phase.waiting) := by
  simp [pendingWorkers, List.mem_filter]

theorem pendingWorkers_length_le_one (lib : UrlLib) (w : World) (hI : Inv lib w)
    (userid : String) : (pendingWorkers w userid).length ≤ 1 := by
  have hsub : (pendingWorkers w userid).Sublist w.workers := List.filter_sublist _
  have hnd : ((pendingWorkers w userid).map (fun k => k.stop)).Nodup :=
    List.Nodup.sublist (hsub.map _) hI.distinct
  match hl : pendingWorkers w userid with
  | [] => simp
  | [_] => simp
  | a :: b :: rest =>
    exfalso
    have ha : a ∈ pendingWorkers w userid := by rw [hl]; simp
    have hb : b ∈ pendingWorkers w userid := by rw [hl]; simp
    rw [mem_pendingWorkers] at ha hb
    obtain ⟨ua, ea1, ea2⟩ := hI.live a ha.1 ha.2.2
    obtain ⟨ub, eb1, eb2⟩ := hI.live b hb.1 hb.2.2
    rw [ha.2.1] at ea1
    rw [hb.2.1, ea1] at eb1
    cases eb1
    rw [hl] at hnd
    simp only [List.map_cons, List.nodup_cons, List.mem_cons] at hnd
    exact hnd.1 (Or.inl (ea2.symm.trans eb2))

theorem orphaned_reachable : Reachable goUrl orphaned :=
  Relation.ReflTransGen.tail
    (Relation.ReflTransGen.tail Relation.ReflTransGen.refl
      (Step.addUser World.init "u" ":" sampleCookies))
    (Step.worker addedBadUrl 0 ⟨"u", ":", 0, sampleCookies, Phase.aboutToRun⟩
      ⟨"u", ":", 0, sampleCookies, Phase.exited⟩ noErrors (by decide) rfl (by decide))

theorem settled_reachable : Reachable goUrl settled :=
  Relation.ReflTransGen.tail
    (Relation.ReflTransGen.tail Relation.ReflTransGen.refl
      (Step.addUser World.init "u" "http://localhost:8000" sampleCookies))
    (Step.worker (AddUser World.init "u" "http://localhost:8000" sampleCookies).2 0
      ⟨"u", "http://localhost:8000", 0, sampleCookies, Phase.aboutToRun⟩
      ⟨"u", "http://localhost:8000", 0, sampleCookies, Phase.waiting⟩ noErrors (by decide) rfl
      (by decide))

/-! ### A session whose worker is gone stays blocked for ever -/

theorem handoff_none_of_exited (ws : List Worker) (ch : Nat)
    (hnd : (ws.map (fun k => k.stop)).Nodup)
    (h : ∃ k ∈ ws, k.stop = ch ∧ k.phase = Phase.exited) : handoff ws ch = none := by
  rw [handoff_eq_none_iff]
  obtain ⟨k, hk, hs, hp⟩ := h
  rintro j hj ⟨hjs, hjp⟩
  have e : j = k := List.inj_on_of_nodup_map hnd hj hk (hjs.trans hs.symm)
  rw [e, hp] at hjp
  cases hjp

theorem Stuck_handoff_none (lib : UrlLib) (w : World) (userid : String) (u : User)
    (h : Stuck lib w userid) (hu : w.users.lookup userid = some u) :
    handoff w.workers u.stop = none := by
  obtain ⟨hI, u1, hu1, hk⟩ := h
  rw [hu] at hu1
  cases hu1
  exact handoff_none_of_exited _ _ hI.distinct hk

theorem Stuck_remove (lib : UrlLib) (w : World) (userid : String) (h : Stuck lib w userid)
    (id1 : String) (u1 : User) (hu1 : w.users.lookup id1 = some u1) (ws1 : List Worker)
    (hh : handoff w.workers u1.stop = some ws1) (sent : List Nat) :
    Stuck lib ⟨w.users.erase id1, w.nextChan, ws1, sent⟩ userid := by
  have hne : userid ≠ id1 := by
    intro heq
    subst heq
    rw [Stuck_handoff_none lib w userid u1 h hu1] at hh
    cases hh
  obtain ⟨hI, u, hu, k, hk, hks, hkp⟩ := h
  obtain ⟨l, k0, r, e1, e2, h1, h2, -⟩ := handoff_split _ _ _ hh
  refine ⟨?_, u, ?_, k, ?_, hks, hkp⟩
  · rw [e2]
    exact Inv_remove lib w hI id1 u1 hu1 l r k0 sent e1 h1
  · show (w.users.erase id1).lookup userid = some u
    rw [AList.lookup_erase_ne hne]
    exact hu
  · rw [e1] at hk
    rw [e2]
    rcases (mem_middle_iff l r k0 k).1 hk with rfl | hk
    · rw [hkp] at h2
      cases h2
    · exact (mem_middle_iff l r _ k).2 (Or.inr hk)

theorem Stuck_removeLoop (lib : UrlLib) (userid : String)
    (es : List (Sigma fun _ : String => User)) :
    ∀ w w1 : World, es.NodupKeys → (∀ e ∈ es, w.users.lookup e.1 = some e.2) →
      Stuck lib w userid → removeLoop es w = some w1 → Stuck lib w1 userid := by
  induction es with
  | nil =>
    intro w w1 _ _ hS h
    simp only [removeLoop, Option.some.injEq] at h
    rw [← h]
    exact hS
  | cons e es ih =>
    intro w w1 hkeys hlook hS h
    have hnotin : e.1 ∉ es.keys := List.not_mem_keys_of_nodupKeys_cons hkeys
    cases hh : handoff w.workers e.2.stop with
    | none => simp [removeLoop, send_eq_none w e.2.stop hh] at h
    | some ws1 =>
      simp only [removeLoop, send_eq_some w e.2.stop ws1 hh] at h
      refine ih _ w1 (List.nodupKeys_of_nodupKeys_cons hkeys) ?_
        (Stuck_remove lib w userid hS e.1 e.2 (hlook e (List.mem_cons_self _ _)) ws1 hh _) h
      intro e0 he0
      have hne : e0.1 ≠ e.1 := by
        intro heq
        exact hnotin (heq ▸ List.mem_keys_of_mem he0)
      show (w.users.erase e.1).lookup e0.1 = some e0.2
      rw [AList.lookup_erase_ne hne]
      exact hlook e0 (List.mem_cons_of_mem _ he0)

theorem Stuck_removeLoop_none (lib : UrlLib) (userid : String)
    (es : List (Sigma fun _ : String => User)) :
    ∀ w : World, es.NodupKeys → (∀ e ∈ es, w.users.lookup e.1 = some e.2) →
      Stuck lib w userid → userid ∈ es.keys → removeLoop es w = none := by
  induction es with
  | nil =>
    intro w _ _ _ hmem
    simp at hmem
  | cons e es ih =>
    intro w hkeys hlook hS hmem
    have hnotin : e.1 ∉ es.keys := List.not_mem_keys_of_nodupKeys_cons hkeys
    cases hh : handoff w.workers e.2.stop with
    | none => simp [removeLoop, send_eq_none w e.2.stop hh]
    | some ws1 =>
      simp only [removeLoop, send_eq_some w e.2.stop ws1 hh]
      have hne : userid ≠ e.1 := by
        intro heq
        have hu := hlook e (List.mem_cons_self _ _)
        rw [← heq] at hu
        rw [Stuck_handoff_none lib w userid e.2 hS hu] at hh
        cases hh
      refine ih _ (List.nodupKeys_of_nodupKeys_cons hkeys) ?_
        (Stuck_remove lib w userid hS e.1 e.2 (hlook e (List.mem_cons_self _ _)) ws1 hh _) ?_
      · intro e0 he0
        have hne0 : e0.1 ≠ e.1 := by
          intro heq
          exact hnotin (heq ▸ List.mem_keys_of_mem he0)
        show (w.users.erase e.1).lookup e0.1 = some e0.2
        rw [AList.lookup_erase_ne hne0]
        exact hlook e0 (List.mem_cons_of_mem _ he0)
      · rw [List.keys_cons, List.mem_cons] at hmem
        rcases hmem with hm | hm
        · exact absurd hm hne
        · exact hm

theorem Stuck_Step (lib : UrlLib) (userid : String) (w w1 : World)
    (hS : Stuck lib w userid) (h : Step lib w w1) : Stuck lib w1 userid := by
  have hI1 : Inv lib w1 := Inv_Step lib w w1 hS.1 h
  cases h with
  | addUser id1 url cookies =>
    obtain ⟨-, u, hu, k, hk, hks, hkp⟩ := hS
    refine ⟨hI1, u, AddUser_lookup_keep w id1 url cookies userid u hu, k, ?_, hks, hkp⟩
    cases h1 : w.users.lookup id1 with
    | none =>
      rw [AddUser_absent w id1 url cookies h1]
      exact List.mem_append_left _ hk
    | some u1 =>
      rw [AddUser_present w id1 url cookies u1 h1]
      exact hk
  | removeUser id1 b _ hr =>
    cases hu1 : w.users.lookup id1 with
    | none =>
      simp only [RemoveUser, hu1, Option.some.injEq, Prod.mk.injEq] at hr
      rw [← hr.2]
      exact hS
    | some u1 =>
      cases hh : handoff w.workers u1.stop with
      | none => simp [RemoveUser, hu1, send_eq_none w u1.stop hh] at hr
      | some ws1 =>
        simp only [RemoveUser, hu1, send_eq_some w u1.stop ws1 hh, Option.some.injEq,
          Prod.mk.injEq] at hr
        rw [← hr.2]
        exact Stuck_remove lib w userid hS id1 u1 hu1 ws1 hh _
  | removeUsers order n _ hperm hr =>
    have hkeys : order.NodupKeys := (List.perm_nodupKeys hperm).2 w.users.nodupKeys
    refine Stuck_removeLoop lib userid (order.take n) w w1
      (hkeys.sublist (List.take_sublist n order)) ?_ hS hr
    intro e he
    exact lookup_of_mem_entries w.users e (hperm.subset (List.mem_of_mem_take he))
  | setConnected id1 b =>
    obtain ⟨-, u, hu, k, hk, hks, hkp⟩ := hS
    obtain ⟨u1, hu1, hs1⟩ := lookup_of_map_stop _ _ userid u
      (SetConnected_lookup_stop w id1 b userid) hu
    exact ⟨hI1, u1, hu1, k, by rw [SetConnected_workers]; exact hk, hks.trans hs1.symm, hkp⟩
  | setSubscribed id1 b =>
    obtain ⟨-, u, hu, k, hk, hks, hkp⟩ := hS
    obtain ⟨u1, hu1, hs1⟩ := lookup_of_map_stop _ _ userid u
      (SetSubscribed_lookup_stop w id1 b userid) hu
    exact ⟨hI1, u1, hu1, k, by rw [SetSubscribed_workers]; exact hk, hks.trans hs1.symm, hkp⟩
  | worker i k0 k1 o hget hphase hstart =>
    obtain ⟨-, u, hu, k, hk, hks, hkp⟩ := hS
    obtain ⟨l, r, e1, e2⟩ := set_split w.workers i k0 k1 hget
    refine ⟨hI1, u, hu, k, ?_, hks, hkp⟩
    show k ∈ w.workers.set i k1
    rw [e2]
    rw [e1] at hk
    rcases (mem_middle_iff l r k0 k).1 hk with rfl | hk
    · rw [hkp] at hphase
      cases hphase
    · exact (mem_middle_iff l r k1 k).2 (Or.inr hk)
  | workerExit i k0 hget hphase =>
    obtain ⟨-, u, hu, k, hk, hks, hkp⟩ := hS
    obtain ⟨l, r, e1, e2⟩ := set_split w.workers i k0 { k0 with phase := Phase.exited } hget
    refine ⟨hI1, u, hu, k, ?_, hks, hkp⟩
    show k ∈ w.workers.set i { k0 with phase := Phase.exited }
    rw [e2]
    rw [e1] at hk
    rcases (mem_middle_iff l r k0 k).1 hk with rfl | hk
    · rw [hkp] at hphase
      cases hphase
    · exact (mem_middle_iff l r _ k).2 (Or.inr hk)

theorem Stuck_forever (lib : UrlLib) (userid : String) (w w1 : World)
    (hS : Stuck lib w userid) (h : Relation.ReflTransGen (Step lib) w w1) :
    RemoveUser w1 userid = none ∧
    ∀ order : List (Sigma fun _ : String => User), order.Perm w1.users.entries →
      RemoveUsersIn order w1 = none := by
  have hS1 : Stuck lib w1 userid := by
    induction h with
    | refl => exact hS
    | tail _ hstep ih => exact Stuck_Step lib userid _ _ ih hstep
  obtain ⟨u, hu, -⟩ := hS1.2
  constructor
  · simp [RemoveUser, hu, send_eq_none w1 u.stop (Stuck_handoff_none lib w1 userid u hS1 hu)]
  · intro order hperm
    have hkeys : order.NodupKeys := (List.perm_nodupKeys hperm).2 w1.users.nodupKeys
    refine Stuck_removeLoop_none lib userid order w1 hkeys
      (fun e he => lookup_of_mem_entries w1.users e (hperm.subset he)) hS1 ?_
    have hk : userid ∈ w1.users.keys := AList.mem_keys.1 (AList.lookup_isSome.1 (by rw [hu]; rfl))
    have hp : order.keys.Perm w1.users.keys := hperm.map _
    exact hp.symm.subset hk

theorem orphaned_stuck : Stuck goUrl orphaned "u" :=
  ⟨Inv_Reachable goUrl orphaned orphaned_reachable, ⟨"u", 0, false, false⟩, by decide,
    ⟨"u", ":", 0, sampleCookies, Phase.exited⟩, by decide, rfl, rfl⟩

/-! ### The worker after its Init -/

theorem connectAndSubscribe_reached (o : ClientOutcomes) (userid endpoint : String) :
    (connectAndSubscribe o userid endpoint).reached = Reached.waiting endpoint ("#" ++ userid) :=
  rfl

theorem newClient_after_init (lib : UrlLib) (o : ClientOutcomes) (userid url : String)
    (cookies : List Cookie) (cent : URL) (hjar : o.jarErr = none)
    (hparse : lib.Parse url = some cent) :
    newClient lib o userid url cookies =
      connectAndSubscribe o userid
        (lib.Render ⟨workerScheme cent.Scheme, cent.Host,
          lib.Join cent.Path "/connection/websocket"⟩) := by
  simp [newClient, hjar, hparse]

theorem waitLoop_leaves_iff (received : Option Int) :
    waitLoop received ≠ Phase.waiting ↔ received ≠ none := by
  cases received <;> simp [waitLoop]

theorem handoff_get (ws ws1 : List Worker) (ch : Nat) (h : handoff ws ch = some ws1) :
    ∀ (i : Nat) (k : Worker), ws[i]? = some k →
      ws1[i]? = some k ∨
        (k.stop = ch ∧ k.phase = Phase.waiting ∧
          ws1[i]? = some { k with phase := Phase.stopping }) := by
  induction ws generalizing ws1 with
  | nil => simp [handoff] at h
  | cons a as ih =>
    intro i k hk
    by_cases ha : a.stop = ch ∧ a.phase = Phase.waiting
    · rw [handoff, if_pos ha] at h
      cases h
      cases i with
      | zero =>
        simp only [List.getElem?_cons_zero, Option.some.injEq] at hk
        subst hk
        exact Or.inr ⟨ha.1, ha.2, by simp⟩
      | succ i =>
        left
        simpa using hk
    · simp only [handoff, ha, if_false, Option.map_eq_some'] at h
      obtain ⟨as1, has, rfl⟩ := h
      cases i with
      | zero =>
        left
        simpa using hk
      | succ i =>
        simp only [List.getElem?_cons_succ] at hk ⊢
        exact ih as1 has i k hk

theorem removeLoop_get_other (es : List (Sigma fun _ : String => User)) :
    ∀ w w1 : World, removeLoop es w = some w1 →
      ∀ (i : Nat) (k : Worker), w.workers[i]? = some k → k.phase ≠ Phase.waiting →
        w1.workers[i]? = some k := by
  induction es with
  | nil =>
    intro w w1 h i k hk _
    simp only [removeLoop, Option.some.injEq] at h
    rw [← h]
    exact hk
  | cons e es ih =>
    intro w w1 h i k hk hp
    cases hh : handoff w.workers e.2.stop with
    | none => simp [removeLoop, send_eq_none w e.2.stop hh] at h
    | some ws1 =>
      simp only [removeLoop, send_eq_some w e.2.stop ws1 hh] at h
      refine ih _ w1 h i k ?_ hp
      rcases handoff_get _ _ _ hh i k hk with h1 | ⟨-, h2, -⟩
      · exact h1
      · exact absurd h2 hp

theorem removeLoop_sent (es : List (Sigma fun _ : String => User)) :
    ∀ w w1 : World, removeLoop es w = some w1 →
      w1.sent = w.sent ++ es.map (fun e => e.2.stop) := by
  induction es with
  | nil =>
    intro w w1 h
    simp only [removeLoop, Option.some.injEq] at h
    rw [← h]
    simp
  | cons e es ih =>
    intro w w1 h
    cases hh : handoff w.workers e.2.stop with
    | none => simp [removeLoop, send_eq_none w e.2.stop hh] at h
    | some ws1 =>
      simp only [removeLoop, send_eq_some w e.2.stop ws1 hh] at h
      rw [ih _ w1 h]
      simp

theorem removeLoop_get (es : List (Sigma fun _ : String => User)) :
    ∀ w w1 : World, removeLoop es w = some w1 →
      ∀ (i : Nat) (k : Worker), w.workers[i]? = some k →
        w1.workers[i]? = some k ∨
          (w1.workers[i]? = some { k with phase := Phase.stopping } ∧
            k.stop ∈ es.map (fun e => e.2.stop)) := by
  induction es with
  | nil =>
    intro w w1 h i k hk
    simp only [removeLoop, Option.some.injEq] at h
    rw [← h]
    exact Or.inl hk
  | cons e es ih =>
    intro w w1 h i k hk
    cases hh : handoff w.workers e.2.stop with
    | none => simp [removeLoop, send_eq_none w e.2.stop hh] at h
    | some ws1 =>
      simp only [removeLoop, send_eq_some w e.2.stop ws1 hh] at h
      rcases handoff_get _ _ _ hh i k hk with h1 | ⟨h2, -, h3⟩
      · rcases ih _ w1 h i k h1 with h4 | ⟨h4, h5⟩
        · exact Or.inl h4
        · exact Or.inr ⟨h4, List.mem_cons_of_mem _ h5⟩
      · right
        refine ⟨removeLoop_get_other es _ w1 h i _ h3 (fun hp => Phase.noConfusion hp), ?_⟩
        rw [List.map_cons, ← h2]
        exact List.mem_cons_self _ _

theorem SetConnected_sent (w : World) (userid : String) (b : Bool) :
    (SetConnected w userid b).sent = w.sent := by
  cases h : w.users.lookup userid <;> simp [SetConnected, h]

theorem SetSubscribed_sent (w : World) (userid : String) (b : Bool) :
    (SetSubscribed w userid b).sent = w.sent := by
  cases h : w.users.lookup userid <;> simp [SetSubscribed, h]

theorem set_get_of_phase_ne (ws : List Worker) (i j : Nat) (k k0 k1 : Worker)
    (hi : ws[i]? = some k) (hj : ws[j]? = some k0) (hne : k.phase ≠ k0.phase) :
    (ws.set j k1)[i]? = some k := by
  have hij : j ≠ i := by
    intro heq
    subst heq
    rw [hi] at hj
    cases hj
    exact hne rfl
  rw [List.getElem?_set_ne hij]
  exact hi

theorem waiting_Step (lib : UrlLib) (w w1 : World) (h : Step lib w w1) (i : Nat) (k : Worker)
    (hk : w.workers.get? i = some k) (hp : k.phase = Phase.waiting) :
    ∃ extra, w1.sent = w.sent ++ extra ∧
      (w1.workers.get? i = some k ∨
        (w1.workers.get? i = some { k with phase := Phase.stopping } ∧ k.stop ∈ extra)) := by
  rw [List.get?_eq_getElem?] at hk
  simp only [List.get?_eq_getElem?]
  cases h with
  | addUser userid url cookies =>
    refine ⟨[], ?_, Or.inl ?_⟩
    · cases hu : w.users.lookup userid with
      | none => rw [AddUser_absent w userid url cookies hu]; simp
      | some u => rw [AddUser_present w userid url cookies u hu]; simp
    · cases hu : w.users.lookup userid with
      | none =>
        rw [AddUser_absent w userid url cookies hu]
        have hlt : i < w.workers.length := (List.getElem?_eq_some.1 hk).1
        show (w.workers ++ [_])[i]? = some k
        rw [List.getElem?_append_left hlt]
        exact hk
      | some u => rw [AddUser_present w userid url cookies u hu]; exact hk
  | removeUser userid b _ hr =>
    cases hu : w.users.lookup userid with
    | none =>
      simp only [RemoveUser, hu, Option.some.injEq, Prod.mk.injEq] at hr
      rw [← hr.2]
      exact ⟨[], by simp, Or.inl hk⟩
    | some u =>
      cases hh : handoff w.workers u.stop with
      | none => simp [RemoveUser, hu, send_eq_none w u.stop hh] at hr
      | some ws1 =>
        simp only [RemoveUser, hu, send_eq_some w u.stop ws1 hh, Option.some.injEq,
          Prod.mk.injEq] at hr
        rw [← hr.2]
        refine ⟨[u.stop], rfl, ?_⟩
        rcases handoff_get _ _ _ hh i k hk with h1 | ⟨h2, -, h3⟩
        · exact Or.inl h1
        · exact Or.inr ⟨h3, by rw [h2]; exact List.mem_singleton.2 rfl⟩
  | removeUsers order n _ hperm hr =>
    exact ⟨(order.take n).map (fun e => e.2.stop), removeLoop_sent _ w w1 hr,
      removeLoop_get _ w w1 hr i k hk⟩
  | setConnected userid b =>
    exact ⟨[], by rw [SetConnected_sent]; simp, Or.inl (by rw [SetConnected_workers]; exact hk)⟩
  | setSubscribed userid b =>
    exact ⟨[], by rw [SetSubscribed_sent]; simp, Or.inl (by rw [SetSubscribed_workers]; exact hk)⟩
  | worker j k0 k1 o hget hphase hstart =>
    rw [List.get?_eq_getElem?] at hget
    exact ⟨[], by simp, Or.inl (set_get_of_phase_ne w.workers i j k k0 k1 hk hget
      (by rw [hp, hphase]; decide))⟩
  | workerExit j k0 hget hphase =>
    rw [List.get?_eq_getElem?] at hget
    exact ⟨[], by simp, Or.inl (set_get_of_phase_ne w.workers i j k k0 _ hk hget
      (by rw [hp, hphase]; decide))⟩

theorem cancelled_eq :
    RemoveUser settled "u" = some (true, cancelled) := rfl

theorem cancelled_reachable : Reachable goUrl cancelled :=
  Relation.ReflTransGen.tail settled_reachable
    (Step.removeUser settled "u" true cancelled cancelled_eq)

theorem readded_reachable : Reachable goUrl readded :=
  Relation.ReflTransGen.tail cancelled_reachable
    (Step.addUser cancelled "u" "http://localhost:8000" sampleCookies)

theorem workerScheme_apiScheme (s : String) :
    workerScheme (apiScheme s) = if s = "http" ∨ s = "ws" then "ws" else "wss" := by
  unfold apiScheme
  by_cases h1 : s = "ws"
  · subst h1; decide
  · rw [if_neg h1]
    by_cases h2 : s = "wss"
    · subst h2; decide
    · rw [if_neg h2]
      unfold workerScheme
      by_cases h3 : s = "http"
      · simp [h3]
      · simp [h1, h3]

theorem connectionAdd_single (lib : UrlLib) (readCookies : String → List Cookie)
    (settings : Settings) (r : Request) (w : World) (req : RequestAdd) (u : URL)
    (hmethod : r.Method = "POST") (hread : r.readErr = none) (hjson : r.json = Except.ok req)
    (hid : req.Id ≠ "") (hmany : ¬ req.Many > 0)
    (hurl : (if req.CentrifugoUrl ≠ "" then req.CentrifugoUrl else settings.CentrifugoUrl) ≠ "")
    (hparse :
      lib.Parse (if req.CentrifugoUrl ≠ "" then req.CentrifugoUrl else settings.CentrifugoUrl) =
        some u)
    (hcookies : (if req.Cookie ≠ "" then readCookies req.Cookie else r.Cookies) ≠ []) :
    (connectionAdd lib readCookies settings r w).2 =
      (AddUser w req.Id (lib.Render { u with Scheme := apiScheme u.Scheme })
        (if req.Cookie ≠ "" then readCookies req.Cookie else r.Cookies)).2 := by
  have hne0 : ¬ (req.Id = "" ∧ req.Many = 0) := fun h => hid h.1
  have hlen : ¬ (if req.Cookie ≠ "" then readCookies req.Cookie else r.Cookies).length = 0 := by
    intro h
    exact hcookies (List.length_eq_zero.1 h)
  unfold connectionAdd
  rw [if_neg (by simp [hmethod])]
  simp only [hread, hjson]
  rw [if_neg hne0]
  rw [if_neg hurl]
  simp only [hparse]
  rw [if_neg hlen, if_neg hmany]
  rfl

/-! ### Validation in the add branch -/

theorem connectionAdd_rejects (lib : UrlLib) (readCookies : String → List Cookie)
    (settings : Settings) (r : Request) (w : World) (req : RequestAdd)
    (hj : r.json = Except.ok req)
    (h : (req.Id = "" ∧ req.Many = 0) ∨
      (req.CentrifugoUrl = "" ∧ settings.CentrifugoUrl = "") ∨
      (if req.Cookie ≠ "" then readCookies req.Cookie else r.Cookies) = []) :
    (connectionAdd lib readCookies settings r w).1.status = 500 ∧
      (connectionAdd lib readCookies settings r w).2 = w := by
  unfold connectionAdd
  by_cases hm : r.Method ≠ "POST"
  · simp [hm]
  · rw [if_neg hm]
    cases hr : r.readErr with
    | some err => simp
    | none =>
      simp only [hj]
      by_cases h1 : req.Id = "" ∧ req.Many = 0
      · simp [h1]
      · rw [if_neg h1]
        by_cases h2 : (if req.CentrifugoUrl ≠ "" then req.CentrifugoUrl
            else settings.CentrifugoUrl) = ""
        · simp [h2]
        · simp only [h2, if_false]
          cases hp : lib.Parse (if req.CentrifugoUrl ≠ "" then req.CentrifugoUrl
              else settings.CentrifugoUrl) with
          | none => simp
          | some u =>
            rcases h with h | h | h
            · exact absurd h h1
            · exfalso
              apply h2
              simp [h.1, h.2]
            · simp [h]

/-! ### Decimal numerals -/

theorem digitVal_digitChar (k : Nat) (h : k < 10) : digitVal (Nat.digitChar k) = k := by
  interval_cases k <;> rfl

theorem toDigitsCore_append (fuel : Nat) :
    ∀ (n : Nat) (ds : List Char),
      Nat.toDigitsCore 10 fuel n ds = Nat.toDigitsCore 10 fuel n [] ++ ds := by
  induction fuel with
  | zero => intro n ds; simp [Nat.toDigitsCore]
  | succ fuel ih =>
    intro n ds
    simp only [Nat.toDigitsCore]
    by_cases h : n / 10 = 0
    · simp [h]
    · simp only [h, if_false]
      rw [ih (n / 10) (Nat.digitChar (n % 10) :: ds), ih (n / 10) [Nat.digitChar (n % 10)]]
      simp

theorem decodeDigits_append_singleton (cs : List Char) (c : Char) :
    decodeDigits (cs ++ [c]) = decodeDigits cs * 10 + digitVal c := by
  simp [decodeDigits, List.foldl_append]

theorem decodeDigits_toDigitsCore (fuel : Nat) :
    ∀ n : Nat, n < fuel → decodeDigits (Nat.toDigitsCore 10 fuel n []) = n := by
  induction fuel with
  | zero => intro n h; omega
  | succ fuel ih =>
    intro n hn
    simp only [Nat.toDigitsCore]
    by_cases h : n / 10 = 0
    · simp only [h, if_true]
      have hlt : n % 10 < 10 := Nat.mod_lt _ (by decide)
      simp only [decodeDigits, List.foldl_cons, List.foldl_nil, digitVal_digitChar _ hlt]
      omega
    · simp only [h, if_false]
      rw [toDigitsCore_append fuel (n / 10) [Nat.digitChar (n % 10)],
        decodeDigits_append_singleton, ih (n / 10) (by omega),
        digitVal_digitChar _ (Nat.mod_lt _ (by decide))]
      omega

theorem decodeDigits_repr (n : Nat) : decodeDigits (Nat.repr n).data = n := by
  simp only [Nat.repr, Nat.toDigits, List.asString]
  exact decodeDigits_toDigitsCore (n + 1) n (Nat.lt_succ_self n)

theorem toString_nat_injective (i j : Nat) (h : toString i = toString j) : i = j := by
  have h1 : Nat.repr i = Nat.repr j := h
  rw [← decodeDigits_repr i, ← decodeDigits_repr j, h1]

/-! ### Bulk add -/

theorem addMessage_fst (w : World) (userid url : String) (cookies : List Cookie) :
    (addMessage w userid url cookies).1 =
      addLine url userid (w.users.lookup userid).isNone := by
  cases h : w.users.lookup userid with
  | none => simp [addMessage, addLine, AddUser_absent w userid url cookies h]
  | some u => simp [addMessage, addLine, AddUser_present w userid url cookies u h]

theorem addMessage_snd (w : World) (userid url : String) (cookies : List Cookie) :
    (addMessage w userid url cookies).2 = (AddUser w userid url cookies).2 := rfl

theorem AddUser_length (w : World) (userid url : String) (cookies : List Cookie) :
    (AddUser w userid url cookies).2.users.entries.length =
      w.users.entries.length + (if w.users.lookup userid = none then 1 else 0) := by
  cases h : w.users.lookup userid with
  | none =>
    rw [AddUser_absent w userid url cookies h]
    show (w.users.insert userid _).entries.length = _
    rw [AList.insert_entries_of_neg (AList.lookup_eq_none.1 h)]
    simp
  | some u =>
    rw [AddUser_present w userid url cookies u h]
    simp

theorem bulkLoop_spec (url : String) (cookies : List Cookie) (ids : List Nat) :
    ∀ w : World, ids.Nodup →
      (bulkLoop url cookies ids w).1 =
        ids.map (fun i => addLine url (toString i) (w.users.lookup (toString i)).isNone) ∧
      (bulkLoop url cookies ids w).2 =
        (ids.map (fun i => toString i)).foldl (fun v id => (AddUser v id url cookies).2) w ∧
      (∀ i ∈ ids, (bulkLoop url cookies ids w).2.users.lookup (toString i) ≠ none) ∧
      (∀ i ∈ ids, w.users.lookup (toString i) = none →
        ∃ c, (bulkLoop url cookies ids w).2.users.lookup (toString i) =
          some ⟨toString i, c, false, false⟩) ∧
      (∀ k u, w.users.lookup k = some u →
        (bulkLoop url cookies ids w).2.users.lookup k = some u) ∧
      (∀ k, (∀ i ∈ ids, k ≠ toString i) →
        (bulkLoop url cookies ids w).2.users.lookup k = w.users.lookup k) ∧
      (bulkLoop url cookies ids w).2.users.entries.length =
        w.users.entries.length +
          (ids.filter (fun i => (w.users.lookup (toString i)).isNone)).length := by
  induction ids with
  | nil =>
    intro w _
    simp [bulkLoop]
  | cons i rest ih =>
    intro w hnd
    rw [List.nodup_cons] at hnd
    have hne : ∀ j ∈ rest, toString j ≠ toString i := by
      intro j hj heq
      exact hnd.1 (toString_nat_injective j i heq ▸ hj)
    obtain ⟨h1, h2, h3, h4, h5, h6, h7⟩ := ih (AddUser w (toString i) url cookies).2 hnd.2
    have hsame : ∀ j ∈ rest,
        (AddUser w (toString i) url cookies).2.users.lookup (toString j) =
          w.users.lookup (toString j) :=
      fun j hj => AddUser_lookup_ne w (toString i) url cookies (toString j) (hne j hj)
    simp only [bulkLoop, addMessage_snd, addMessage_fst]
    refine ⟨?_, ?_, ?_, ?_, ?_, ?_, ?_⟩
    · rw [h1, List.map_cons]
      congr 1
      apply List.map_congr_left
      intro j hj
      rw [hsame j hj]
    · rw [h2]
      rfl
    · intro j hj
      rcases List.mem_cons.1 hj with rfl | hj
      · cases hl : (AddUser w (toString j) url cookies).2.users.lookup (toString j) with
        | none => exact absurd hl (AddUser_lookup_self w (toString j) url cookies)
        | some u => rw [h5 (toString j) u hl]; simp
      · exact h3 j hj
    · intro j hj hnone
      rcases List.mem_cons.1 hj with rfl | hj
      · refine ⟨w.nextChan, h5 (toString j) _ ?_⟩
        rw [AddUser_absent w (toString j) url cookies hnone]
        exact AList.lookup_insert _
      · exact h4 j hj (by rw [hsame j hj]; exact hnone)
    · intro k u hk
      exact h5 k u (AddUser_lookup_keep w (toString i) url cookies k u hk)
    · intro k hk
      rw [h6 k (fun j hj => hk j (List.mem_cons_of_mem _ hj))]
      exact AddUser_lookup_ne w (toString i) url cookies k (hk i (List.mem_cons_self _ _))
    · rw [h7, AddUser_length, List.filter_cons]
      have hfilter : rest.filter (fun j =>
            ((AddUser w (toString i) url cookies).2.users.lookup (toString j)).isNone) =
          rest.filter (fun j => (w.users.lookup (toString j)).isNone) := by
        apply List.filter_congr
        intro j hj
        rw [hsame j hj]
      rw [hfilter]
      cases hl : w.users.lookup (toString i) with
      | none => simp; omega
      | some u0 => simp

/-! ## The claims -/

/-- C1: `AddUser(id, url, cookies)` on an absent id returns true, binds id to
a session with that id, a fresh stop channel and both flags false, leaves
every other entry unchanged and starts exactly one worker for id (about to
run, on that channel); on a present id it returns false and changes nothing.
A second `AddUser` with the same id right after the first returns false and
starts no worker, so the two calls start exactly one worker for an id that
was absent, and leave exactly one live worker for id in every state in which
the live workers of id matched its presence in the map. -/
theorem AddUser_contract (w : World) (userid url : String) (cookies : List Cookie) :
    (w.users.lookup userid = none →
      (AddUser w userid url cookies).1 = true ∧
      (AddUser w userid url cookies).2.users.lookup userid =
        some ⟨userid, w.nextChan, false, false⟩ ∧
      (∀ k, k ≠ userid →
        (AddUser w userid url cookies).2.users.lookup k = w.users.lookup k) ∧
      (AddUser w userid url cookies).2.workers =
        w.workers ++ [⟨userid, url, w.nextChan, cookies, Phase.aboutToRun⟩] ∧
      (AddUser w userid url cookies).2.sent = w.sent) ∧
    (w.users.lookup userid ≠ none → AddUser w userid url cookies = (false, w)) ∧
    (∀ (url2 : String) (cookies2 : List Cookie),
      AddUser (AddUser w userid url cookies).2 userid url2 cookies2 =
        (false, (AddUser w userid url cookies).2)) ∧
    (startedWorkers (AddUser w userid url cookies).2 userid).length =
      (startedWorkers w userid).length + (if w.users.lookup userid = none then 1 else 0) ∧
    ((liveWorkers w userid).length = (if w.users.lookup userid = none then 0 else 1) →
      (liveWorkers (AddUser w userid url cookies).2 userid).length = 1) := by
  refine ⟨?_, ?_, ?_, ?_, ?_⟩
  · intro h
    rw [AddUser_absent w userid url cookies h]
    refine ⟨rfl, AList.lookup_insert _, ?_, rfl, rfl⟩
    intro k hk
    exact AList.lookup_insert_ne hk
  · intro h
    cases hu : w.users.lookup userid with
    | none => exact absurd hu h
    | some u => exact AddUser_present w userid url cookies u hu
  · intro url2 cookies2
    cases hu : (AddUser w userid url cookies).2.users.lookup userid with
    | none => exact absurd hu (AddUser_lookup_self w userid url cookies)
    | some u => exact AddUser_present _ userid url2 cookies2 u hu
  · cases h : w.users.lookup userid with
    | none =>
      rw [AddUser_absent w userid url cookies h]
      simp [startedWorkers, List.filter_append]
    | some u =>
      rw [AddUser_present w userid url cookies u h]
      simp
  · cases h : w.users.lookup userid with
    | none =>
      rw [AddUser_absent w userid url cookies h]
      intro hl
      simp only [if_true] at hl
      simp [liveWorkers, List.filter_append] at hl ⊢
      simpa [liveWorkers] using hl
    | some u =>
      rw [AddUser_present w userid url cookies u h]
      intro hl
      simpa using hl

/-- C2 (amended): `RemoveUser(id)` on a present id whose stop channel has a
worker waiting on it returns true, completes exactly one send, on that
channel, received by the first worker waiting on it and by no other (that
worker goes on to return), and leaves the map with exactly the entry of id
deleted; on a present id whose channel
no worker is waiting on it stays blocked in its send, and once the worker of
that channel is gone it is blocked in every later state of the run; on an
absent id it returns false, sends nothing and leaves the state, and the
answer of `GetCounters`, unchanged. -/
theorem RemoveUser_contract (w : World) (userid : String) :
    (∀ u, w.users.lookup userid = some u →
      (∃ k ∈ w.workers, k.stop = u.stop ∧ k.phase = Phase.waiting) →
      ∃ w1, RemoveUser w userid = some (true, w1) ∧
        w1.users = w.users.erase userid ∧
        w1.users.lookup userid = none ∧
        (∀ k, k ≠ userid → w1.users.lookup k = w.users.lookup k) ∧
        w1.sent = w.sent ++ [u.stop] ∧
        w1.nextChan = w.nextChan ∧
        ∃ l k r, w.workers = l ++ k :: r ∧
          w1.workers = l ++ { k with phase := Phase.stopping } :: r ∧
          k.stop = u.stop ∧ k.phase = Phase.waiting) ∧
    (∀ u, w.users.lookup userid = some u →
      (¬ ∃ k ∈ w.workers, k.stop = u.stop ∧ k.phase = Phase.waiting) →
      RemoveUser w userid = none) ∧
    (w.users.lookup userid = none →
      RemoveUser w userid = some (false, w) ∧
        ∀ w1, RemoveUser w userid = some (false, w1) → GetCounters w1 = GetCounters w) ∧
    (∀ lib : UrlLib, Stuck lib w userid →
      ∀ w1, Relation.ReflTransGen (Step lib) w w1 → RemoveUser w1 userid = none) := by
  refine ⟨?_, ?_, ?_, fun lib hS w1 h1 => (Stuck_forever lib userid w w1 hS h1).1⟩
  · intro u hu hw
    obtain ⟨ws1, hws⟩ := handoff_of_waiting w.workers u.stop hw
    obtain ⟨l, k, r, e1, e2, h1, h2, -⟩ := handoff_split _ _ _ hws
    refine ⟨⟨w.users.erase userid, w.nextChan, ws1, w.sent ++ [u.stop]⟩, ?_, rfl,
      AList.lookup_erase _ _, ?_, rfl, rfl, l, k, r, e1, e2, h1, h2⟩
    · simp [RemoveUser, hu, send_eq_some w u.stop ws1 hws]
    · intro k hk
      exact AList.lookup_erase_ne hk
  · intro u hu hw
    have hn : handoff w.workers u.stop = none := by
      rw [handoff_eq_none_iff]
      intro k hk hkw
      exact hw ⟨k, hk, hkw⟩
    simp [RemoveUser, hu, send_eq_none w u.stop hn]
  · intro hu
    have e : RemoveUser w userid = some (false, w) := by simp [RemoveUser, hu]
    refine ⟨e, ?_⟩
    intro w1 h1
    rw [e] at h1
    cases h1
    rfl

/-- C2, the claim as stated fails: in the reachable state where the worker of
"u" has returned at line 200 (its URL ":" does not parse) the id "u" is
present, yet `RemoveUser("u")` stays blocked in its send and returns nothing,
in this state and in every state the run can reach from it. -/
theorem RemoveUser_blocks_without_receiver :
    Reachable goUrl orphaned ∧
    orphaned.users.lookup "u" = some ⟨"u", 0, false, false⟩ ∧
    (¬ ∃ w1, RemoveUser orphaned "u" = some (true, w1)) ∧
    (∀ w1, Relation.ReflTransGen (Step goUrl) orphaned w1 → RemoveUser w1 "u" = none) := by
  refine ⟨orphaned_reachable, by decide, ?_,
    fun w1 h1 => (Stuck_forever goUrl "u" orphaned w1 orphaned_stuck h1).1⟩
  rintro ⟨w1, h⟩
  have e : RemoveUser orphaned "u" = none := rfl
  rw [e] at h
  cases h

/-- C2 (amended), at a concrete state: with the worker of "u" waiting on its
channel, `RemoveUser("u")` returns true and sends on channel 0. -/
theorem RemoveUser_contract_witness :
    ∃ w1, RemoveUser settled "u" = some (true, w1) ∧ w1.sent = [0] ∧
      w1.users.lookup "u" = none :=
  have h := (RemoveUser_contract settled "u").1 ⟨"u", 0, false, false⟩ (by decide)
    ⟨⟨"u", "http://localhost:8000", 0, sampleCookies, Phase.waiting⟩, by decide, rfl, rfl⟩
  h.elim fun w1 hw => ⟨w1, hw.1, hw.2.2.2.2.1, hw.2.2.1⟩

/-- C3: `SetConnected` and `SetSubscribed` never change the set of ids; for an
absent id they leave the registry unchanged (so `GetCounters` answers as
before); for a present id the session's flag becomes `b` while its id, stop
channel and other flag, every other session, the workers and the signals are
unchanged; and an update applied twice gives the state of the update applied
once. -/
theorem status_updates_frame (w : World) (userid : String) (b : Bool) :
    ((∀ k, k ∈ (SetConnected w userid b).users ↔ k ∈ w.users) ∧
      (w.users.lookup userid = none →
        SetConnected w userid b = w ∧
          GetCounters (SetConnected w userid b) = GetCounters w) ∧
      (∀ u, w.users.lookup userid = some u →
        (SetConnected w userid b).users.lookup userid =
          some ⟨u.id, u.stop, b, u.isSubscribed⟩) ∧
      (∀ k, k ≠ userid → (SetConnected w userid b).users.lookup k = w.users.lookup k) ∧
      (SetConnected w userid b).workers = w.workers ∧
      (SetConnected w userid b).nextChan = w.nextChan ∧
      (SetConnected w userid b).sent = w.sent ∧
      SetConnected (SetConnected w userid b) userid b = SetConnected w userid b) ∧
    ((∀ k, k ∈ (SetSubscribed w userid b).users ↔ k ∈ w.users) ∧
      (w.users.lookup userid = none →
        SetSubscribed w userid b = w ∧
          GetCounters (SetSubscribed w userid b) = GetCounters w) ∧
      (∀ u, w.users.lookup userid = some u →
        (SetSubscribed w userid b).users.lookup userid =
          some ⟨u.id, u.stop, u.isConnected, b⟩) ∧
      (∀ k, k ≠ userid → (SetSubscribed w userid b).users.lookup k = w.users.lookup k) ∧
      (SetSubscribed w userid b).workers = w.workers ∧
      (SetSubscribed w userid b).nextChan = w.nextChan ∧
      (SetSubscribed w userid b).sent = w.sent ∧
      SetSubscribed (SetSubscribed w userid b) userid b = SetSubscribed w userid b) := by
  constructor
  · cases h : w.users.lookup userid with
    | none =>
      have e : SetConnected w userid b = w := by simp [SetConnected, h]
      simp [e, h]
    | some u =>
      have e : SetConnected w userid b =
          { w with users := w.users.insert userid { u with isConnected := b } } := by
        simp [SetConnected, h]
      refine ⟨?_, ?_, ?_, ?_, ?_, ?_, ?_, ?_⟩
      · intro k; rw [e]; exact mem_insert_of_lookup _ _ _ _ h k
      · intro h0; simp at h0
      · intro u1 h1; rw [e]; cases h1; exact AList.lookup_insert _
      · intro k hk; rw [e]; exact AList.lookup_insert_ne hk
      · rw [e]
      · rw [e]
      · rw [e]
      · rw [e]; simp [SetConnected, AList.lookup_insert, AList.insert_insert]
  · cases h : w.users.lookup userid with
    | none =>
      have e : SetSubscribed w userid b = w := by simp [SetSubscribed, h]
      simp [e, h]
    | some u =>
      have e : SetSubscribed w userid b =
          { w with users := w.users.insert userid { u with isSubscribed := b } } := by
        simp [SetSubscribed, h]
      refine ⟨?_, ?_, ?_, ?_, ?_, ?_, ?_, ?_⟩
      · intro k; rw [e]; exact mem_insert_of_lookup _ _ _ _ h k
      · intro h0; simp at h0
      · intro u1 h1; rw [e]; cases h1; exact AList.lookup_insert _
      · intro k hk; rw [e]; exact AList.lookup_insert_ne hk
      · rw [e]
      · rw [e]
      · rw [e]
      · rw [e]; simp [SetSubscribed, AList.lookup_insert, AList.insert_insert]

/-- C4: `GetCounters` returns total = the number of entries of the map,
connected = the number of entries whose `isConnected` is true, subscribed = the
number of entries whose `isSubscribed` is true, whatever the order in which
`range` visits the entries, and it leaves the registry as it was. -/
theorem GetCounters_counts (w : World) :
    (GetCounters w).1.total = w.users.entries.length ∧
    (GetCounters w).1.total = w.users.keys.length ∧
    (GetCounters w).1.connected = w.users.entries.countP (fun e => e.2.isConnected) ∧
    (GetCounters w).1.subscribed = w.users.entries.countP (fun e => e.2.isSubscribed) ∧
    (GetCounters w).2 = w ∧
    (∀ order : List (Sigma fun _ : String => User), order.Perm w.users.entries →
      GetCountersIn order w = GetCounters w) := by
  refine ⟨rfl, ?_, ?_, ?_, rfl, ?_⟩
  · simp [GetCounters, GetCountersIn, AList.keys, List.keys]
  · simp [GetCounters, GetCountersIn, countLoop_eq]
  · simp [GetCounters, GetCountersIn, countLoop_eq]
  · intro order h
    simp only [GetCounters, GetCountersIn, countLoop_eq]
    rw [h.countP_eq, h.countP_eq]

/-- C5 (amended): in every state in which each session has a worker waiting on
its own stop channel, however many sessions there are, whatever their flags
and in whatever order `range` visits them, `RemoveUsers` returns, leaves the
map empty so that `GetCounters` answers total = 0, connected = 0,
subscribed = 0, and completes exactly one send per session that was present;
its final state is that of `RemoveUser` applied once to each id in that order. -/
theorem RemoveUsers_sweep (w : World) (order : List (Sigma fun _ : String => User))
    (hperm : order.Perm w.users.entries)
    (hready : ∀ e ∈ w.users.entries, ∃ k ∈ w.workers, k.stop = e.2.stop ∧ k.phase = Phase.waiting)
    (hdistinct : (w.users.entries.map (fun e => e.2.stop)).Nodup) :
    ∃ w1, RemoveUsersIn order w = some w1 ∧
      w1.users = ∅ ∧
      (GetCounters w1).1 = ⟨0, 0, 0⟩ ∧
      w1.sent = w.sent ++ order.map (fun e => e.2.stop) ∧
      (order.map (fun e => e.2.stop)).Perm (w.users.entries.map (fun e => e.2.stop)) ∧
      removeEach order.keys w = some w1 := by
  have hkeys : order.NodupKeys := (List.perm_nodupKeys hperm).2 w.users.nodupKeys
  have hstops : (order.map (fun e => e.2.stop)).Nodup :=
    (hperm.map _).nodup_iff.2 hdistinct
  obtain ⟨w1, h1, h2, h3, -, h5⟩ := removeLoop_spec order w hkeys hstops
    (fun e he => lookup_of_mem_entries w.users e (hperm.subset he))
    (fun e he => hready e (hperm.subset he))
  have hempty : w1.users = ∅ := by
    apply users_eq_empty
    intro k
    rw [h5 k]
    by_cases hk : k ∈ order.keys
    · simp [hk]
    · simp only [hk, if_false]
      rw [AList.lookup_eq_none, AList.mem_keys]
      intro hk1
      apply hk
      have : order.keys.Perm w.users.keys := hperm.map _
      exact this.symm.subset hk1
  refine ⟨w1, h1, hempty, ?_, h3, hperm.map _, h2⟩
  simp [GetCounters, GetCountersIn, countLoop, hempty]

/-- C5, the claim as stated fails: in the reachable state where the worker of
"u" has returned at line 200 the map holds one session, and the sweep stays
blocked in its send to it, whatever the order of the visit, in this state and
in every state the run can reach from it: `RemoveUsers` followed by
`GetCounters` yields nothing. -/
theorem RemoveUsers_blocks_without_receiver :
    Reachable goUrl orphaned ∧
    (GetCounters orphaned).1 = ⟨1, 0, 0⟩ ∧
    (¬ ∃ order w1, List.Perm order orphaned.users.entries ∧
        RemoveUsersIn order orphaned = some w1 ∧ (GetCounters w1).1 = ⟨0, 0, 0⟩) ∧
    (∀ w1, Relation.ReflTransGen (Step goUrl) orphaned w1 →
      ∀ order : List (Sigma fun _ : String => User), order.Perm w1.users.entries →
        RemoveUsersIn order w1 = none) := by
  refine ⟨orphaned_reachable, by decide, ?_,
    fun w1 h1 => (Stuck_forever goUrl "u" orphaned w1 orphaned_stuck h1).2⟩
  rintro ⟨order, w1, hperm, h, -⟩
  rw [(Stuck_forever goUrl "u" orphaned orphaned orphaned_stuck
    Relation.ReflTransGen.refl).2 order hperm] at h
  cases h

/-- C5 (amended), at a concrete state: two sessions, one of them connected,
both workers waiting; the sweep returns, the counters are zero and one signal
went to each channel. -/
theorem RemoveUsers_sweep_witness :
    ∃ w1, RemoveUsers settledTwo = some w1 ∧ w1.users = ∅ ∧
      (GetCounters w1).1 = ⟨0, 0, 0⟩ ∧ w1.sent = [0, 1] ∧
      (GetCounters settledTwo).1 = ⟨2, 1, 0⟩ :=
  have h := RemoveUsers_sweep settledTwo settledTwo.users.entries (List.Perm.refl _)
    (by decide) (by decide)
  h.elim fun w1 hw => ⟨w1, hw.1, hw.2.1, hw.2.2.1, hw.2.2.2.1, by decide⟩

/-- C6 (amended): in every state reachable from the empty registry by
`AddUser`, `RemoveUser`, `RemoveUsers`, `SetConnected`, `SetSubscribed` and
worker steps, with any broker URL strings, there is at most one worker for an
id that has not yet received its cancellation signal (about to run, or
waiting in its `select`); such a worker exists only for an id of the map; and
an id of the map has exactly one such worker unless its worker returned at
startup because its URL did not parse. So a session is in the map if and only
if it has a worker that has not received its signal, as long as every URL
given to `AddUser` parses. A worker that has received its signal is no part
of this: it may still be running after its entry is deleted. -/
theorem registry_worker_invariant (lib : UrlLib) (w : World) (h : Reachable lib w)
    (userid : String) :
    (pendingWorkers w userid).length ≤ 1 ∧
    ((pendingWorkers w userid).length = 1 → userid ∈ w.users) ∧
    (userid ∈ w.users →
      (pendingWorkers w userid).length = 1 ∨
        ∃ k ∈ w.workers, k.userid = userid ∧ k.phase = Phase.exited ∧
          lib.Parse k.centrifugoUrl = none) ∧
    ((∀ k ∈ w.workers, lib.Parse k.centrifugoUrl ≠ none) →
      (userid ∈ w.users ↔ (pendingWorkers w userid).length = 1)) ∧
    (∀ k ∈ liveWorkers w userid,
      k ∈ pendingWorkers w userid ∨ k.phase = Phase.stopping) := by
  have hI := Inv_Reachable lib w h
  have hle := pendingWorkers_length_le_one lib w hI userid
  have h1 : (pendingWorkers w userid).length = 1 → userid ∈ w.users := by
    intro hl
    match hw : pendingWorkers w userid with
    | [] => rw [hw] at hl; cases hl
    | a :: _ =>
      have ha : a ∈ pendingWorkers w userid := by rw [hw]; simp
      rw [mem_pendingWorkers] at ha
      obtain ⟨u, e1, -⟩ := hI.live a ha.1 ha.2.2
      rw [ha.2.1] at e1
      exact AList.lookup_isSome.1 (by rw [e1]; rfl)
  have h2 : userid ∈ w.users →
      (pendingWorkers w userid).length = 1 ∨
        ∃ k ∈ w.workers, k.userid = userid ∧ k.phase = Phase.exited ∧
          lib.Parse k.centrifugoUrl = none := by
    intro hm
    cases hu : w.users.lookup userid with
    | none => exact absurd hm (AList.lookup_eq_none.1 hu)
    | some u =>
      obtain ⟨k, hk, e1, -, e3, e4⟩ := hI.bound userid u hu
      by_cases hp : k.phase = Phase.exited
      · exact Or.inr ⟨k, hk, e1, hp, e4 hp⟩
      · left
        have hpend : k.phase = Phase.aboutToRun ∨ k.phase = Phase.waiting := by
          cases hph : k.phase with
          | aboutToRun => exact Or.inl rfl
          | waiting => exact Or.inr rfl
          | stopping => exact absurd hph e3
          | exited => exact absurd hph hp
        have hk1 : k ∈ pendingWorkers w userid :=
          (mem_pendingWorkers w userid k).2 ⟨hk, e1, hpend⟩
        have hpos : 0 < (pendingWorkers w userid).length := List.length_pos_of_mem hk1
        omega
  refine ⟨hle, h1, h2, ?_, ?_⟩
  · intro hparse
    constructor
    · intro hm
      rcases h2 hm with hl | ⟨k, hk, -, -, e⟩
      · exact hl
      · exact absurd e (hparse k hk)
    · exact h1
  · intro k hk
    simp only [liveWorkers, List.mem_filter, Bool.and_eq_true, decide_eq_true_eq] at hk
    cases hph : k.phase with
    | aboutToRun => exact Or.inl ((mem_pendingWorkers w userid k).2 ⟨hk.1, hk.2.1, Or.inl hph⟩)
    | waiting => exact Or.inl ((mem_pendingWorkers w userid k).2 ⟨hk.1, hk.2.1, Or.inr hph⟩)
    | stopping => exact Or.inr rfl
    | exited => exact absurd hph hk.2.2

/-- C6, the claim as stated fails, three ways. `AddUser("u", ":", cookies)`
followed by the worker's run, which returns at line 200 because
`url.Parse(":")` fails, reaches a state whose map has the session "u" while no
worker for "u" is running or about to run. `AddUser`, the worker's run to its
`select` and `RemoveUser` reach a state whose map has no session "u" while
the worker, past its receive, is still running. A further `AddUser("u", ...)`
reaches a state with two running workers for "u". -/
theorem entry_without_worker :
    (Reachable goUrl orphaned ∧ "u" ∈ orphaned.users ∧ liveWorkers orphaned "u" = [] ∧
      ¬ ("u" ∈ orphaned.users ↔ (liveWorkers orphaned "u").length = 1)) ∧
    (Reachable goUrl cancelled ∧ "u" ∉ cancelled.users ∧
      liveWorkers cancelled "u" =
        [⟨"u", "http://localhost:8000", 0, sampleCookies, Phase.stopping⟩]) ∧
    (Reachable goUrl readded ∧ (liveWorkers readded "u").length = 2) :=
  ⟨⟨orphaned_reachable, by decide, by decide, by decide⟩,
    ⟨cancelled_reachable, by decide, by decide⟩, ⟨readded_reachable, by decide⟩⟩

/-- C6 (amended), at a concrete reachable state: "u" was added with a URL
that parses and its worker has reached its `select`. -/
theorem registry_worker_invariant_witness :
    Reachable goUrl settled ∧
    ("u" ∈ settled.users ↔ (pendingWorkers settled "u").length = 1) ∧
    (pendingWorkers settled "u").length = 1 :=
  ⟨settled_reachable, (registry_worker_invariant goUrl settled settled_reachable "u").2.2.2.1
    (by decide), by decide⟩

/-- C7: a worker that has completed its Init (the cookie jar was built and the
URL parsed) reaches its wait on the cancellation signal for every answer of
`client.Connect`, `client.NewSubscription` and `sub.Subscribe`, nil or error:
it neither returns nor ends the process, and what it logs is the `Connect`
error and the `NewSubscription` error, if any. Once there it leaves the wait
only when a value arrives on its stop channel: every step of the process
leaves a waiting worker waiting, or is a send on that worker's own channel. -/
theorem worker_waits_until_signal (lib : UrlLib) (o : ClientOutcomes) (userid url : String)
    (cookies : List Cookie) (stop : Nat) (cent : URL) (hjar : o.jarErr = none)
    (hparse : lib.Parse url = some cent) :
    (newClient lib o userid url cookies).reached =
      Reached.waiting
        (lib.Render ⟨workerScheme cent.Scheme, cent.Host,
          lib.Join cent.Path "/connection/websocket"⟩)
        ("#" ++ userid) ∧
    (newClient lib o userid url cookies).logs =
      (match o.connectErr with
        | some err => ["[User " ++ userid ++ "] Connection with centrifugo error: " ++ err ++ "\n"]
        | none => []) ++
      (match o.newSubscriptionErr with
        | some err =>
          ["[User " ++ userid ++ "] Subscription to centrifugo channel error: " ++ err ++ "\n"]
        | none => []) ∧
    startWorker lib o ⟨userid, url, stop, cookies, Phase.aboutToRun⟩ =
      some ⟨userid, url, stop, cookies, Phase.waiting⟩ ∧
    (∀ received : Option Int, waitLoop received ≠ Phase.waiting ↔ received ≠ none) ∧
    (∀ (w w1 : World) (i : Nat) (k : Worker), Step lib w w1 →
      w.workers.get? i = some k → k.phase = Phase.waiting →
      ∃ extra, w1.sent = w.sent ++ extra ∧
        (w1.workers.get? i = some k ∨
          (w1.workers.get? i = some { k with phase := Phase.stopping } ∧ k.stop ∈ extra))) := by
  have e := newClient_after_init lib o userid url cookies cent hjar hparse
  refine ⟨by rw [e]; rfl, by rw [e]; rfl, ?_, waitLoop_leaves_iff, ?_⟩
  · simp only [startWorker]
    rw [e]
    rfl
  · intro w w1 i k hstep hk hp
    exact waiting_Step lib w w1 hstep i k hk hp

/-- C7, at a concrete input: `Connect`, `NewSubscription` and `Subscribe` all
answer an error; the worker logs the two errors it logs and waits. -/
theorem worker_waits_until_signal_witness :
    (newClient goUrl allFail "u" "http://localhost:8000" sampleCookies).reached =
      Reached.waiting "ws://localhost:8000/connection/websocket" "#u" ∧
    (newClient goUrl allFail "u" "http://localhost:8000" sampleCookies).logs =
      ["[User u] Connection with centrifugo error: dial tcp: connection refused\n",
        "[User u] Subscription to centrifugo channel error: duplicate subscription\n"] :=
  have h := worker_waits_until_signal goUrl allFail "u" "http://localhost:8000" sampleCookies 0
    ⟨"http", "localhost:8000", ""⟩ rfl (by decide)
  ⟨h.1.trans (by decide), h.2.1.trans (by decide)⟩

/-- C8, at the failing input: an add request with an empty id and the bulk
count `-1`, with a broker URL and a request cookie, is not rejected: the
handler answers 200, calls `AddUser` with the empty id, which enters the map,
and a worker is started for it. -/
theorem add_accepts_empty_id_with_negative_count :
    (connectionAdd goUrl (fun _ => []) emptySettings negativeBulk World.init).1 =
      ⟨200, ["User  is added to http://localhost:8000\n"]⟩ ∧
    (connectionAdd goUrl (fun _ => []) emptySettings negativeBulk World.init).2.users.lookup "" =
      some ⟨"", 0, false, false⟩ ∧
    (connectionAdd goUrl (fun _ => []) emptySettings negativeBulk World.init).2.workers =
      [⟨"", "http://localhost:8000", 0, sampleCookies, Phase.aboutToRun⟩] := by
  refine ⟨by decide, by decide, by decide⟩

/-- C9: a valid bulk add request with count `N > 0` (a POST whose body
decodes, with a broker URL that parses and at least one cookie) answers 200
and calls `AddUser` exactly once for each of the decimal numerals of
0, 1, ..., N-1, in increasing order, and for no other id: the state it leaves
is that of these calls in this order, and the lines written are, in this
order, "added" for the ids that were absent and "already exists" for the
others. Afterwards every such id is in the map, entries already present and
all other ids are unchanged, and on an empty registry `GetCounters().total`
is `N`. -/
theorem bulk_add_sequential (lib : UrlLib) (readCookies : String → List Cookie)
    (settings : Settings) (r : Request) (w : World) (req : RequestAdd) (N : Nat) (u : URL)
    (hmethod : r.Method = "POST") (hread : r.readErr = none) (hjson : r.json = Except.ok req)
    (hN : 0 < N) (hmany : req.Many = (N : Int))
    (hurl : (if req.CentrifugoUrl ≠ "" then req.CentrifugoUrl else settings.CentrifugoUrl) ≠ "")
    (hparse :
      lib.Parse (if req.CentrifugoUrl ≠ "" then req.CentrifugoUrl else settings.CentrifugoUrl) =
        some u)
    (hcookies : (if req.Cookie ≠ "" then readCookies req.Cookie else r.Cookies) ≠ []) :
    (connectionAdd lib readCookies settings r w).1 =
      ⟨200, (List.range N).map (fun i =>
        addLine (lib.Render { u with Scheme := apiScheme u.Scheme }) (toString i)
          (w.users.lookup (toString i)).isNone)⟩ ∧
    (connectionAdd lib readCookies settings r w).2 =
      ((List.range N).map (fun i => toString i)).foldl
        (fun v id =>
          (AddUser v id (lib.Render { u with Scheme := apiScheme u.Scheme })
            (if req.Cookie ≠ "" then readCookies req.Cookie else r.Cookies)).2) w ∧
    (∀ i, i < N → toString i ∈ (connectionAdd lib readCookies settings r w).2.users) ∧
    (∀ i, i < N → w.users.lookup (toString i) = none →
      ∃ c, (connectionAdd lib readCookies settings r w).2.users.lookup (toString i) =
        some ⟨toString i, c, false, false⟩) ∧
    (∀ k u0, w.users.lookup k = some u0 →
      (connectionAdd lib readCookies settings r w).2.users.lookup k = some u0) ∧
    (∀ k, (∀ i, i < N → k ≠ toString i) →
      (connectionAdd lib readCookies settings r w).2.users.lookup k = w.users.lookup k) ∧
    (w.users = ∅ → (GetCounters (connectionAdd lib readCookies settings r w).2).1.total = N) := by
  have hpos : req.Many > 0 := by rw [hmany]; exact_mod_cast hN
  have hne0 : ¬ (req.Id = "" ∧ req.Many = 0) := by
    intro h
    rw [h.2] at hpos
    exact absurd hpos (by decide)
  have htoNat : req.Many.toNat = N := by rw [hmany]; simp
  have hlen : ¬ (if req.Cookie ≠ "" then readCookies req.Cookie else r.Cookies).length = 0 := by
    intro h
    exact hcookies (List.length_eq_zero.1 h)
  have e : connectionAdd lib readCookies settings r w =
      (⟨200, (bulkLoop (lib.Render { u with Scheme := apiScheme u.Scheme })
          (if req.Cookie ≠ "" then readCookies req.Cookie else r.Cookies) (List.range N) w).1⟩,
        (bulkLoop (lib.Render { u with Scheme := apiScheme u.Scheme })
          (if req.Cookie ≠ "" then readCookies req.Cookie else r.Cookies) (List.range N) w).2) := by
    unfold connectionAdd
    rw [if_neg (by simp [hmethod])]
    simp only [hread, hjson]
    rw [if_neg hne0]
    rw [if_neg hurl]
    simp only [hparse]
    rw [if_neg hlen, if_pos hpos, htoNat]
  obtain ⟨h1, h2, h3, h4, h5, h6, h7⟩ :=
    bulkLoop_spec (lib.Render { u with Scheme := apiScheme u.Scheme })
      (if req.Cookie ≠ "" then readCookies req.Cookie else r.Cookies) (List.range N) w
      (List.nodup_range N)
  rw [e]
  refine ⟨by rw [h1], h2, ?_, ?_, h5, ?_, ?_⟩
  · intro i hi
    have := h3 i (List.mem_range.2 hi)
    rw [Ne, AList.lookup_eq_none, not_not] at this
    exact this
  · intro i hi hnone
    exact h4 i (List.mem_range.2 hi) hnone
  · intro k hk
    exact h6 k (fun i hi => hk i (List.mem_range.1 hi))
  · intro hempty
    show (bulkLoop _ _ (List.range N) w).2.users.entries.length = N
    rw [h7, hempty]
    simp

/-- C9, at a concrete input: a bulk add of two sessions on the empty
registry, with the URL given as ws://localhost:8000 and one request cookie. -/
theorem bulk_add_sequential_witness :
    (connectionAdd goUrl (fun _ => []) emptySettings bulkTwo World.init).1 =
      ⟨200, ["User 0 is added to http://localhost:8000\n",
        "User 1 is added to http://localhost:8000\n"]⟩ ∧
    (GetCounters (connectionAdd goUrl (fun _ => []) emptySettings bulkTwo World.init).2).1.total
      = 2 :=
  have h := bulk_add_sequential goUrl (fun _ => []) emptySettings bulkTwo World.init
    ⟨"", 2, "ws://localhost:8000", ""⟩ 2 ⟨"ws", "localhost:8000", ""⟩ rfl rfl rfl (by decide) rfl
    (by decide) (by decide) (by decide)
  ⟨h.1.trans (by decide), h.2.2.2.2.2.2 rfl⟩

/-- C10 (amended): the worker's rewrite maps "http" to "ws" and every other
scheme, "https" among them, to "wss"; the API's rewrite maps "ws" to "http"
and "wss" to "https" and leaves every other scheme; each undoes the other
between http, https and ws, wss. For every scheme the worker's rewrite of the
API's rewrite is "ws" for http and ws and "wss" otherwise, which for http,
https, ws and wss is the realtime-transport equivalent. The add branch hands
`AddUser` the URL with the API's rewrite, and the worker started on it dials
the URL with the worker's rewrite of that and the realtime path: a URL given
as ws://... is connected to over ws, one given as wss://... over wss. -/
theorem scheme_rewrites_end_to_end (lib : UrlLib) (readCookies : String → List Cookie)
    (settings : Settings) (r : Request) (w : World) (req : RequestAdd) (u : URL)
    (o : ClientOutcomes)
    (hmethod : r.Method = "POST") (hread : r.readErr = none) (hjson : r.json = Except.ok req)
    (hid : req.Id ≠ "") (hmany : ¬ req.Many > 0)
    (hurl : (if req.CentrifugoUrl ≠ "" then req.CentrifugoUrl else settings.CentrifugoUrl) ≠ "")
    (hparse :
      lib.Parse (if req.CentrifugoUrl ≠ "" then req.CentrifugoUrl else settings.CentrifugoUrl) =
        some u)
    (hcookies : (if req.Cookie ≠ "" then readCookies req.Cookie else r.Cookies) ≠ [])
    (hround : lib.Parse (lib.Render { u with Scheme := apiScheme u.Scheme }) =
      some { u with Scheme := apiScheme u.Scheme })
    (hjar : o.jarErr = none) :
    (workerScheme "http" = "ws" ∧ workerScheme "https" = "wss" ∧
      apiScheme "ws" = "http" ∧ apiScheme "wss" = "https") ∧
    (∀ s, workerScheme s = if s = "http" then "ws" else "wss") ∧
    (∀ s, s ≠ "ws" → s ≠ "wss" → apiScheme s = s) ∧
    (∀ s, s = "http" ∨ s = "https" → apiScheme (workerScheme s) = s) ∧
    (∀ s, s = "ws" ∨ s = "wss" → workerScheme (apiScheme s) = s) ∧
    (∀ s, workerScheme (apiScheme s) = if s = "http" ∨ s = "ws" then "ws" else "wss") ∧
    (∀ s, s = "http" ∨ s = "https" ∨ s = "ws" ∨ s = "wss" →
      realtimeEquivalent s = some (workerScheme (apiScheme s))) ∧
    (connectionAdd lib readCookies settings r w).2 =
      (AddUser w req.Id (lib.Render { u with Scheme := apiScheme u.Scheme })
        (if req.Cookie ≠ "" then readCookies req.Cookie else r.Cookies)).2 ∧
    (newClient lib o req.Id (lib.Render { u with Scheme := apiScheme u.Scheme })
        (if req.Cookie ≠ "" then readCookies req.Cookie else r.Cookies)).reached =
      Reached.waiting
        (lib.Render ⟨workerScheme (apiScheme u.Scheme), u.Host,
          lib.Join u.Path "/connection/websocket"⟩)
        ("#" ++ req.Id) := by
  refine ⟨⟨by decide, by decide, by decide, by decide⟩, fun s => rfl, ?_, ?_, ?_,
    workerScheme_apiScheme, ?_, ?_, ?_⟩
  · intro s h1 h2
    simp [apiScheme, h1, h2]
  · rintro s (rfl | rfl) <;> decide
  · rintro s (rfl | rfl) <;> decide
  · rintro s (rfl | rfl | rfl | rfl) <;> decide
  · exact connectionAdd_single lib readCookies settings r w req u hmethod hread hjson hid hmany
      hurl hparse hcookies
  · rw [newClient_after_init lib o req.Id _ _ _ hjar hround]
    rfl

/-- C10, the claim as stated fails: "ftp" has no realtime-transport equivalent
under http↔ws, https↔wss, yet a URL given to the API as ftp://localhost:8000
is handed on unchanged and the worker dials it over wss, because the worker
rewrites every scheme other than "http" to "wss"; so the worker's rewrite of
the API's rewrite is not the realtime equivalent for every scheme, and a
worker handed ws://... directly dials over wss. -/
theorem worker_rewrites_every_other_scheme :
    realtimeEquivalent "ftp" = none ∧
    workerScheme (apiScheme "ftp") = "wss" ∧
    (connectionAdd goUrl (fun _ => []) emptySettings (singleAdd "ftp://localhost:8000")
        World.init).2.workers =
      [⟨"u", "ftp://localhost:8000", 0, sampleCookies, Phase.aboutToRun⟩] ∧
    (newClient goUrl noErrors "u" "ftp://localhost:8000" sampleCookies).reached =
      Reached.waiting "wss://localhost:8000/connection/websocket" "#u" ∧
    (newClient goUrl noErrors "u" "ws://localhost:8000" sampleCookies).reached =
      Reached.waiting "wss://localhost:8000/connection/websocket" "#u" ∧
    ¬ (∀ s, realtimeEquivalent s = some (workerScheme (apiScheme s))) := by
  refine ⟨by decide, by decide, by decide, by decide, by decide, ?_⟩
  intro h
  exact absurd (h "ftp") (by decide)

/-- C10 (amended), at concrete inputs: a URL given to the API as
ws://localhost:8000 is handed to the worker as http://localhost:8000 and
dialled as ws://localhost:8000/connection/websocket; one given as
wss://localhost:8000 is dialled as wss://localhost:8000/connection/websocket. -/
theorem scheme_rewrites_end_to_end_witness :
    ((connectionAdd goUrl (fun _ => []) emptySettings (singleAdd "ws://localhost:8000")
        World.init).2.workers =
      [⟨"u", "http://localhost:8000", 0, sampleCookies, Phase.aboutToRun⟩] ∧
      (newClient goUrl noErrors "u" "http://localhost:8000" sampleCookies).reached =
        Reached.waiting "ws://localhost:8000/connection/websocket" "#u") ∧
    (newClient goUrl noErrors "u" "https://localhost:8000" sampleCookies).reached =
      Reached.waiting "wss://localhost:8000/connection/websocket" "#u" :=
  have h1 := scheme_rewrites_end_to_end goUrl (fun _ => []) emptySettings
    (singleAdd "ws://localhost:8000") World.init ⟨"u", 0, "ws://localhost:8000", ""⟩
    ⟨"ws", "localhost:8000", ""⟩ noErrors rfl rfl rfl (by decide) (by decide) (by decide)
    (by decide) (by decide) (by decide) rfl
  have h2 := scheme_rewrites_end_to_end goUrl (fun _ => []) emptySettings
    (singleAdd "wss://localhost:8000") World.init ⟨"u", 0, "wss://localhost:8000", ""⟩
    ⟨"wss", "localhost:8000", ""⟩ noErrors rfl rfl rfl (by decide) (by decide) (by decide)
    (by decide) (by decide) (by decide) rfl
  ⟨⟨(congrArg World.workers h1.2.2.2.2.2.2.2.1).trans (by decide),
      h1.2.2.2.2.2.2.2.2.trans (by decide)⟩,
    h2.2.2.2.2.2.2.2.2.trans (by decide)⟩

end MockClient
